import Mathlib

/-!
Poker hand evaluation.

A verification development for `poker/js/evaluatePokerHand.js`: the single function
`evaluatePokerHand` that names the combination formed by a hand of cards.

The function is embedded step by step.  Every intermediate value of the JavaScript
function (`instancesOfRank`, `largestSet`, `numberOfSets`, `isFlush`, `longestRun`,
`isBroadway`, `isStraight`, `outcome`) has a definition of the same name, so that
statements about the intermediate values can be made as well as statements about the
returned label.
-/

namespace Poker

/-! ## Data model -/

/-- A card as documented by the `Card` typedef: a suit string and a number rank. -/
structure Card where
  suit : String
  rank : Int
deriving DecidableEq, Repr

/-- The four suit strings of the `Card` typedef. -/
def suits : List String := ["club", "spade", "diamond", "heart"]

/-- The ten strings listed in the `@returns` documentation of `evaluatePokerHand`. -/
def labels : List String :=
  ["highcard", "pair", "twopair", "threeofakind", "straight", "flush", "fullhouse",
   "fourofakind", "straightflush", "royalflush"]

/-! ## The tally array

`instancesOfRank` is a JavaScript array of numbers.  A cell is modelled as `Option Nat`:
`some n` is the number `n`; `none` is a value that is not a number (`NaN`, or the
`undefined` read from a hole of the array).  Such a value compares `false` with `>`
against every number, and adding one to it gives `NaN` again. -/

/-- The initial value of `instancesOfRank`: thirteen zeros. -/
def initialTally : List (Option Nat) := List.replicate 13 (some 0)

/-- The statement `instancesOfRank[idx] += 1` for an integer `idx`.
Inside the array the cell is incremented.  A negative index only creates a property and
leaves the array elements and the length alone.  An index at or past the length makes
the array grow up to that index, the new cells being holes and the written cell `NaN`. -/
def bump (arr : List (Option Nat)) (idx : Int) : List (Option Nat) :=
  if idx < 0 then arr
  else if idx.toNat < arr.length then
    arr.modify (fun cell => cell.map (fun n => n + 1)) idx.toNat
  else arr ++ List.replicate (idx.toNat - arr.length + 1) none

/-- The test `cell > n` of JavaScript for a cell of the tally array. -/
def cellGt (cell : Option Nat) (n : Nat) : Bool :=
  match cell with
  | some v => decide (n < v)
  | none => false

/-- The first loop: `instancesOfRank` after tallying how often each rank appears. -/
def instancesOfRank (hand : List Card) : List (Option Nat) :=
  hand.foldl (fun arr card => bump arr (card.rank - 1)) initialTally

/-! ## Sets -/

/-- One iteration of the second loop, on the state `(largestSet, numberOfSets)`. -/
def setStep (st : Nat × Nat) (cell : Option Nat) : Nat × Nat :=
  let largest := if cellGt cell st.1 then cell.getD st.1 else st.1
  let sets := if cellGt cell 0 then st.2 + 1 else st.2
  (largest, sets)

/-- The second loop over a tally array, from `largestSet = 0` and `numberOfSets = 0`. -/
def setScan (arr : List (Option Nat)) : Nat × Nat :=
  arr.foldl setStep (0, 0)

/-- The value of `largestSet` after the second loop. -/
def largestSet (hand : List Card) : Nat := (setScan (instancesOfRank hand)).1

/-- The value of `numberOfSets` after the second loop. -/
def numberOfSets (hand : List Card) : Nat := (setScan (instancesOfRank hand)).2

/-- The value of `outcome` after the evaluation based on how often a rank appears. -/
def setOutcome (largest sets : Nat) : String :=
  if largest = 4 then "fourofakind"
  else if largest = 3 then
    if sets = 2 then "fullhouse"
    else if sets = 3 then "threeofakind"
    else ""
  else if largest = 2 then
    if sets = 3 then "twopair"
    else if sets = 4 then "pair"
    else ""
  else ""

/-! ## Flush -/

/-- The flush check: `none` when `hand[0]` is `undefined`, so that reading its `suit`
throws; otherwise whether every later card has the suit of the first card. -/
def isFlush (hand : List Card) : Option Bool :=
  match hand with
  | [] => none
  | first :: rest => some (rest.all (fun card => !(card.suit != first.suit)))

/-! ## Straight -/

/-- One iteration of the straight loop, on the value of `longestRun`. -/
def runStep (run : Nat) (cell : Option Nat) : Nat :=
  if cellGt cell 0 then run + 1
  else if run ≠ 5 then 0
  else run

/-- The straight loop over a tally array, from `longestRun = 0`. -/
def runScan (arr : List (Option Nat)) : Nat :=
  arr.foldl runStep 0

/-- The first element of the tally array (it has thirteen cells or more, never none). -/
def aceCell (arr : List (Option Nat)) : Option Nat :=
  match arr with
  | [] => none
  | cell :: _ => cell

/-- The value of `isBroadway`. -/
def isBroadwayOf (arr : List (Option Nat)) : Bool :=
  decide (runScan arr = 4) && cellGt (aceCell arr) 0

/-- The value of `longestRun` after the broadway adjustment. -/
def finalRun (arr : List (Option Nat)) : Nat :=
  if isBroadwayOf arr then runScan arr + 1 else runScan arr

/-- The value of `isStraight`. -/
def isStraightOf (arr : List (Option Nat)) : Bool :=
  decide (finalRun arr = 5)

/-- The value of `longestRun` after the straight loop, before the broadway adjustment. -/
def longestRun (hand : List Card) : Nat := runScan (instancesOfRank hand)

/-- The value of `isBroadway` for a hand. -/
def isBroadway (hand : List Card) : Bool := isBroadwayOf (instancesOfRank hand)

/-- The value of `isStraight` for a hand. -/
def isStraight (hand : List Card) : Bool := isStraightOf (instancesOfRank hand)

/-! ## Final resolution -/

/-- The value of `outcome` after evaluating flush and straight, from its earlier value. -/
def resolve (outcome : String) (flush straight broadway : Bool) : String :=
  if flush || straight then
    if flush && straight then
      if broadway then "royalflush" else "straightflush"
    else if flush then "flush"
    else "straight"
  else outcome

/-- The returned expression `(outcome != "") ? outcome : "highcard"`. -/
def finish (outcome : String) : String :=
  if outcome != "" then outcome else "highcard"

/-- Everything `evaluatePokerHand` computes from the tally array and the flush flag. -/
def classify (arr : List (Option Nat)) (flush : Bool) : String :=
  finish (resolve (setOutcome (setScan arr).1 (setScan arr).2) flush
    (isStraightOf arr) (isBroadwayOf arr))

/-- The function `evaluatePokerHand`: `none` when the call throws, else the label. -/
def evaluatePokerHand (hand : List Card) : Option String :=
  match isFlush hand with
  | none => none
  | some flush => some (classify (instancesOfRank hand) flush)

/-! ## Vocabulary of the specification -/

/-- The ranks of the cards of a hand, in hand order. -/
def ranks (hand : List Card) : List Int := hand.map (fun card => card.rank)

/-- How many cards of the hand have rank `r`. -/
def rankCount (r : Int) (hand : List Card) : Nat :=
  hand.countP (fun card => decide (card.rank = r))

/-- All cards of the hand have the same suit. -/
def sameSuit (hand : List Card) : Prop :=
  ∀ c ∈ hand, ∀ d ∈ hand, c.suit = d.suit

/-- A well-formed hand: exactly five cards, every rank an integer from 1 to 13, every
suit one of the four suit strings, and no two cards sharing both suit and rank. -/
def wellFormed (hand : List Card) : Prop :=
  hand.length = 5 ∧ (∀ c ∈ hand, 1 ≤ c.rank ∧ c.rank ≤ 13) ∧ (∀ c ∈ hand, c.suit ∈ suits) ∧
    hand.Pairwise (fun c d => ¬ (c.suit = d.suit ∧ c.rank = d.rank))

instance (hand : List Card) : Decidable (sameSuit hand) := by
  unfold sameSuit; infer_instance

instance (hand : List Card) : Decidable (wellFormed hand) := by
  unfold wellFormed; infer_instance

/-- The five ranks are `k, k+1, k+2, k+3, k+4` for some `k` from 1 to 9 (ace counted low). -/
def lowSequence (hand : List Card) : Prop :=
  ∃ k : Int, 1 ≤ k ∧ k ≤ 9 ∧ (ranks hand).Perm [k, k + 1, k + 2, k + 3, k + 4]

/-- The five ranks are exactly 10, jack, queen, king and ace. -/
def aceHighSequence (hand : List Card) : Prop :=
  (ranks hand).Perm [10, 11, 12, 13, 1]

/-! ## Auxiliary definitions of the proofs -/

/-- The number tally of a list of ranks: cell `i` counts the occurrences of rank `i + 1`. -/
def tallyOf (rs : List Int) : List Nat :=
  (List.range 13).map (fun (i : Nat) => rs.count ((i : Int) + 1))

/-- The ways of writing five as an ordered sum of positive numbers. -/
def compositionsOfFive : List (List Nat) :=
  [[5], [4, 1], [1, 4], [3, 2], [2, 3], [3, 1, 1], [1, 3, 1], [1, 1, 3], [2, 2, 1],
   [2, 1, 2], [1, 2, 2], [2, 1, 1, 1], [1, 2, 1, 1], [1, 1, 2, 1], [1, 1, 1, 2],
   [1, 1, 1, 1, 1]]

/-- What the largest cell `m` and the number `n` of nonzero cells of a number tally `t`
of five cards say about the cells of `t`. -/
def setFacts (m n : Nat) (t : List Nat) : Prop :=
  (m = 4 ↔ 4 ∈ t) ∧
  (m = 3 ∧ n = 2 ↔ 3 ∈ t ∧ 2 ∈ t) ∧
  (m = 3 ∧ n = 3 ↔ 3 ∈ t ∧ 2 ≤ t.count 1) ∧
  (m = 2 ∧ n = 3 ↔ 2 ≤ t.count 2 ∧ 1 ∈ t) ∧
  (m = 2 ∧ n = 4 ↔ 2 ∈ t ∧ 3 ≤ t.count 1) ∧
  (m = 1 ∧ n = 5 ↔ ∀ x ∈ t, x ≤ 1) ∧
  (m = 5 ∧ n = 1 ↔ 5 ∈ t) ∧
  (m, n) ∈ [(5, 1), (4, 2), (3, 2), (3, 3), (2, 3), (2, 4), (1, 5)]

instance (m n : Nat) (t : List Nat) : Decidable (setFacts m n t) := by
  unfold setFacts; infer_instance

/-- Which cells of a number tally are nonzero. -/
def patternOf (rs : List Int) : List Bool :=
  (tallyOf rs).map (fun x => decide (0 < x))

/-- One iteration of the straight loop, seen on the nonzero test of the cell alone. -/
def runStepB (run : Nat) (present : Bool) : Nat :=
  if present then run + 1
  else if run ≠ 5 then 0
  else run

/-- The straight loop, seen on the nonzero tests of the cells. -/
def runScanB (p : List Bool) : Nat := p.foldl runStepB 0

/-- The nine patterns of five neighbouring ranks, from ace to five up to nine to king. -/
def windows : List (List Bool) :=
  [[true, true, true, true, true, false, false, false, false, false, false, false, false],
   [false, true, true, true, true, true, false, false, false, false, false, false, false],
   [false, false, true, true, true, true, true, false, false, false, false, false, false],
   [false, false, false, true, true, true, true, true, false, false, false, false, false],
   [false, false, false, false, true, true, true, true, true, false, false, false, false],
   [false, false, false, false, false, true, true, true, true, true, false, false, false],
   [false, false, false, false, false, false, true, true, true, true, true, false, false],
   [false, false, false, false, false, false, false, true, true, true, true, true, false],
   [false, false, false, false, false, false, false, false, true, true, true, true, true]]

/-- Whether `f` holds of every list of `n` booleans with at most `c` entries `true`. -/
def allUpTo : Nat → Nat → (List Bool → Bool) → Bool
  | 0, _, f => f []
  | n + 1, c, f =>
    allUpTo n c (fun l => f (false :: l)) &&
      (match c with
       | 0 => true
       | c + 1 => allUpTo n c (fun l => f (true :: l)))

/-- The pattern of ten, jack, queen, king and ace. -/
def broadwayPattern : List Bool :=
  [true, false, false, false, false, false, false, false, false, true, true, true, true]

/-- What the straight loop is checked for on one pattern: a final run of five only on
one of the nine windows, a final run of four with the ace only on the broadway pattern. -/
def runCheck (p : List Bool) : Bool :=
  (if runScanB p = 5 then decide (p ∈ windows) else true) &&
    (if runScanB p = 4 ∧ p.head? = some true then decide (p = broadwayPattern) else true)

/-- Following the words of the specification ("track the longest contiguous run of
consecutive indices with nonzero tally"): one step on the state (current run, longest
run so far). -/
def specRunStep (st : Nat × Nat) (cell : Option Nat) : Nat × Nat :=
  let current := if cellGt cell 0 then st.1 + 1 else 0
  (current, max st.2 current)

/-- Following the words of the specification: the length of the longest contiguous run
of consecutive indices with nonzero tally. -/
def specLongestRun (arr : List (Option Nat)) : Nat :=
  (arr.foldl specRunStep (0, 0)).2

/-- The length of the run of nonzero cells that ends at the last cell, the king. -/
def trailingRun (arr : List (Option Nat)) : Nat :=
  (arr.reverse.takeWhile (fun cell => cellGt cell 0)).length

/-- The step of `specRunStep`, seen on the nonzero test of the cell alone. -/
def specRunStepB (st : Nat × Nat) (present : Bool) : Nat × Nat :=
  let current := if present then st.1 + 1 else 0
  (current, max st.2 current)

/-- The longest run of `specLongestRun`, seen on the nonzero tests of the cells. -/
def specLongestRunB (p : List Bool) : Nat :=
  (p.foldl specRunStepB (0, 0)).2

/-- The run of `trailingRun`, seen on the nonzero tests of the cells. -/
def trailingRunB (p : List Bool) : Nat :=
  (p.reverse.takeWhile (fun present => present)).length

/-- What the straight loop is checked for on one pattern: it ends at 5 when the longest
run is 5, and at the length of the run ending at the last cell otherwise. -/
def shapeCheck (p : List Bool) : Bool :=
  decide (runScanB p = if specLongestRunB p = 5 then 5 else trailingRunB p)

/-! ## The tally array counts ranks -/

theorem bump_counts (g : Nat → Nat) (r : Int) (h1 : 1 ≤ r) (h13 : r ≤ 13) :
    bump ((List.range 13).map (fun i => some (g i))) (r - 1) =
      (List.range 13).map (fun i => some (g i + if r = (i : Int) + 1 then 1 else 0)) := by
  interval_cases r <;> rfl

theorem foldl_bump_counts (hand : List Card) (h : ∀ c ∈ hand, 1 ≤ c.rank ∧ c.rank ≤ 13) :
    ∀ g : Nat → Nat,
      hand.foldl (fun arr card => bump arr (card.rank - 1))
          ((List.range 13).map (fun i => some (g i))) =
        (List.range 13).map (fun i => some (g i + (ranks hand).count ((i : Int) + 1))) := by
  induction hand with
  | nil => intro g; simp [ranks]
  | cons c rest ih =>
    intro g
    have hc := h c (List.mem_cons_self _ _)
    have hrest : ∀ d ∈ rest, 1 ≤ d.rank ∧ d.rank ≤ 13 :=
      fun d hd => h d (List.mem_cons_of_mem _ hd)
    rw [List.foldl_cons, bump_counts g c.rank hc.1 hc.2, ih hrest]
    apply List.map_congr_left
    intro i _
    simp only [ranks, List.map_cons, List.count_cons, beq_iff_eq]
    congr 1
    omega

theorem instancesOfRank_eq (hand : List Card) (h : ∀ c ∈ hand, 1 ≤ c.rank ∧ c.rank ≤ 13) :
    instancesOfRank hand = (tallyOf (ranks hand)).map some := by
  have key := foldl_bump_counts hand h (fun _ => 0)
  unfold instancesOfRank tallyOf
  have h0 : initialTally = (List.range 13).map (fun _ => some 0) := by decide
  rw [h0, key, List.map_map]
  apply List.map_congr_left
  intro i _
  simp

/-! ## The second loop: largest cell and number of nonzero cells -/

theorem foldl_setStep (t : List Nat) :
    ∀ m n : Nat, (t.map some).foldl setStep (m, n) =
      (t.foldl max m, n + t.countP (fun x => decide (0 < x))) := by
  induction t with
  | nil => intro m n; simp
  | cons x rest ih =>
    intro m n
    simp only [List.map_cons, List.foldl_cons, List.countP_cons]
    have hstep : setStep (m, n) (some x) = (max m x, if 0 < x then n + 1 else n) := by
      simp only [setStep, cellGt, Option.getD_some, decide_eq_true_eq]
      by_cases hx : m < x
      · simp [hx, Nat.max_eq_right (Nat.le_of_lt hx)]
      · simp [hx, Nat.max_eq_left (Nat.le_of_not_lt hx)]
    rw [hstep, ih]
    by_cases hx : 0 < x
    · simp [hx]
      omega
    · simp [hx]

theorem setScan_eq (t : List Nat) :
    setScan (t.map some) = (t.foldl max 0, t.countP (fun x => decide (0 < x))) := by
  unfold setScan
  rw [foldl_setStep]
  simp

theorem foldl_max_ge (t : List Nat) : ∀ m : Nat, m ≤ t.foldl max m ∧ ∀ x ∈ t, x ≤ t.foldl max m := by
  induction t with
  | nil => intro m; simp
  | cons y rest ih =>
    intro m
    obtain ⟨h1, h2⟩ := ih (max m y)
    refine ⟨le_trans (le_max_left m y) h1, ?_⟩
    intro x hx
    rcases List.mem_cons.1 hx with rfl | hx
    · exact le_trans (le_max_right m x) h1
    · exact h2 x hx

theorem foldl_max_mem (t : List Nat) : ∀ m : Nat, t.foldl max m = m ∨ t.foldl max m ∈ t := by
  induction t with
  | nil => intro m; simp
  | cons y rest ih =>
    intro m
    rcases ih (max m y) with h | h
    · rcases max_choice m y with hm | hm
      · left; rw [List.foldl_cons, h, hm]
      · right; rw [List.foldl_cons, h, hm]; exact List.mem_cons_self _ _
    · right; exact List.mem_cons_of_mem _ h

theorem sum_filter_pos (t : List Nat) : (t.filter (fun x => decide (0 < x))).sum = t.sum := by
  induction t with
  | nil => rfl
  | cons y rest ih =>
    by_cases hy : 0 < y
    · simp [List.filter_cons, hy, ih]
    · have : y = 0 := by omega
      simp [List.filter_cons, this, ih]

theorem compositions_of_five (z : List Nat) (hs : z.sum = 5) (hp : ∀ x ∈ z, 0 < x) :
    z ∈ compositionsOfFive := by
  rcases z with _ | ⟨a, _ | ⟨b, _ | ⟨c, _ | ⟨d, _ | ⟨e, _ | ⟨f, z⟩⟩⟩⟩⟩⟩
  · simp at hs
  · simp only [List.sum_cons, List.sum_nil] at hs
    obtain rfl : a = 5 := by omega
    decide
  · simp only [List.sum_cons, List.sum_nil, List.mem_cons, List.mem_singleton,
      forall_eq_or_imp, forall_eq, List.not_mem_nil] at hs hp
    obtain ⟨ha, hb⟩ := hp
    have ha4 : a ≤ 4 := by omega
    have hb4 : b ≤ 4 := by omega
    interval_cases a <;> interval_cases b <;> first | decide | (exfalso; omega)
  · simp only [List.sum_cons, List.sum_nil, List.mem_cons, List.mem_singleton,
      forall_eq_or_imp, forall_eq, List.not_mem_nil] at hs hp
    obtain ⟨ha, hb, hc⟩ := hp
    have ha4 : a ≤ 3 := by omega
    have hb4 : b ≤ 3 := by omega
    have hc4 : c ≤ 3 := by omega
    interval_cases a <;> interval_cases b <;> interval_cases c <;>
      first | decide | (exfalso; omega)
  · simp only [List.sum_cons, List.sum_nil, List.mem_cons, List.mem_singleton,
      forall_eq_or_imp, forall_eq, List.not_mem_nil] at hs hp
    obtain ⟨ha, hb, hc, hd⟩ := hp
    have ha4 : a ≤ 2 := by omega
    have hb4 : b ≤ 2 := by omega
    have hc4 : c ≤ 2 := by omega
    have hd4 : d ≤ 2 := by omega
    interval_cases a <;> interval_cases b <;> interval_cases c <;> interval_cases d <;>
      first | decide | (exfalso; omega)
  · simp only [List.sum_cons, List.sum_nil, List.mem_cons, List.mem_singleton,
      forall_eq_or_imp, forall_eq, List.not_mem_nil] at hs hp
    obtain ⟨ha, hb, hc, hd, he⟩ := hp
    obtain rfl : a = 1 := by omega
    obtain rfl : b = 1 := by omega
    obtain rfl : c = 1 := by omega
    obtain rfl : d = 1 := by omega
    obtain rfl : e = 1 := by omega
    decide
  · exfalso
    have ha := hp a (by simp)
    have hb := hp b (by simp)
    have hc := hp c (by simp)
    have hd := hp d (by simp)
    have he := hp e (by simp)
    have hf := hp f (by simp)
    simp only [List.sum_cons] at hs
    omega

theorem setFacts_compositions : ∀ z ∈ compositionsOfFive, ∀ m ∈ z, (∀ x ∈ z, x ≤ m) →
    setFacts m z.length z := by
  decide

theorem mem_filter_pos (t : List Nat) (x : Nat) (hx : 0 < x) :
    x ∈ t.filter (fun y => decide (0 < y)) ↔ x ∈ t := by
  simp [List.mem_filter, hx]

theorem count_filter_pos (t : List Nat) (x : Nat) (hx : 0 < x) :
    (t.filter (fun y => decide (0 < y))).count x = t.count x := by
  apply List.count_filter
  simpa using hx

theorem setFacts_of_sum (t : List Nat) (hs : t.sum = 5) :
    setFacts (t.foldl max 0) (t.countP (fun x => decide (0 < x))) t := by
  have hge := (foldl_max_ge t 0).2
  have hmem : t.foldl max 0 ∈ t := by
    rcases foldl_max_mem t 0 with h | h
    · exfalso
      have hz : ∀ x ∈ t, x = 0 := fun x hx => by
        have := hge x hx
        omega
      have := List.sum_eq_zero hz
      omega
    · exact h
  have hpos : 0 < t.foldl max 0 := by
    by_contra hcon
    have h0 : t.foldl max 0 = 0 := by omega
    have hz : ∀ x ∈ t, x = 0 := fun x hx => by
      have := hge x hx
      omega
    have := List.sum_eq_zero hz
    omega
  have hfacts := setFacts_compositions (t.filter (fun y => decide (0 < y)))
    (compositions_of_five _ (by rw [sum_filter_pos]; exact hs)
      (fun x hx => by simpa using (List.mem_filter.1 hx).2))
    (t.foldl max 0) ((mem_filter_pos t _ hpos).2 hmem)
    (fun x hx => hge x (List.mem_filter.1 hx).1)
  rw [← List.countP_eq_length_filter] at hfacts
  unfold setFacts at hfacts ⊢
  simp only [mem_filter_pos t _ (by decide : 0 < 4), mem_filter_pos t _ (by decide : 0 < 3),
    mem_filter_pos t _ (by decide : 0 < 2), mem_filter_pos t _ (by decide : 0 < 1),
    mem_filter_pos t _ (by decide : 0 < 5),
    count_filter_pos t _ (by decide : 0 < 1), count_filter_pos t _ (by decide : 0 < 2)] at hfacts
  obtain ⟨f1, f2, f3, f4, f5, f6, f7, f8⟩ := hfacts
  refine ⟨f1, f2, f3, f4, f5, ?_, f7, f8⟩
  rw [f6]
  constructor
  · intro h x hx
    by_cases hx0 : 0 < x
    · exact h x ((mem_filter_pos t x hx0).2 hx)
    · omega
  · intro h x hx
    exact h x (List.mem_filter.1 hx).1

/-! ## Cells of the number tally and ranks of the hand -/

theorem rankCount_eq (r : Int) (hand : List Card) : rankCount r hand = (ranks hand).count r := by
  unfold rankCount ranks
  rw [List.count, List.countP_map]
  congr 1

theorem ranks_range (hand : List Card) (h : ∀ c ∈ hand, 1 ≤ c.rank ∧ c.rank ≤ 13) :
    ∀ r ∈ ranks hand, 1 ≤ r ∧ r ≤ 13 := by
  intro r hr
  obtain ⟨c, hc, rfl⟩ := List.mem_map.1 hr
  exact h c hc

theorem tallyOf_length (rs : List Int) : (tallyOf rs).length = 13 := by
  simp [tallyOf]

theorem tallyOf_sum (rs : List Int) (h : ∀ r ∈ rs, 1 ≤ r ∧ r ≤ 13) :
    (tallyOf rs).sum = rs.length := by
  induction rs with
  | nil => simp [tallyOf]
  | cons r rest ih =>
    have hr := h r (List.mem_cons_self _ _)
    have hrest : ∀ x ∈ rest, 1 ≤ x ∧ x ≤ 13 := fun x hx => h x (List.mem_cons_of_mem _ hx)
    have ih := ih hrest
    have hone : ((List.range 13).map
        (fun (i : Nat) => if (r == (i : Int) + 1) = true then 1 else 0)).sum = 1 := by
      obtain ⟨h1, h13⟩ := hr
      interval_cases r <;> rfl
    unfold tallyOf at ih ⊢
    simp only [List.count_cons, List.sum_map_add, ih, List.length_cons, hone]

theorem mem_tallyOf (rs : List Int) (h : ∀ r ∈ rs, 1 ≤ r ∧ r ≤ 13) (x : Nat) (hx : 0 < x) :
    x ∈ tallyOf rs ↔ ∃ r, rs.count r = x := by
  unfold tallyOf
  constructor
  · intro hmem
    obtain ⟨i, _, hi⟩ := List.mem_map.1 hmem
    exact ⟨(i : Int) + 1, hi⟩
  · rintro ⟨r, hr⟩
    have hmem : r ∈ rs := List.count_pos_iff.1 (by omega)
    obtain ⟨h1, h13⟩ := h r hmem
    refine List.mem_map.2 ⟨(r - 1).toNat, List.mem_range.2 (by omega), ?_⟩
    have : (((r - 1).toNat : Nat) : Int) + 1 = r := by omega
    rw [this]
    exact hr

theorem two_le_countP (l : List Nat) (hl : l.Nodup) (q : Nat → Bool) :
    2 ≤ l.countP q ↔ ∃ i ∈ l, ∃ j ∈ l, i ≠ j ∧ q i = true ∧ q j = true := by
  rw [List.countP_eq_length_filter]
  have hn : (l.filter q).Nodup := hl.filter _
  constructor
  · intro hlen
    rcases hf : l.filter q with _ | ⟨i, _ | ⟨j, rest⟩⟩
    · rw [hf] at hlen; simp at hlen
    · rw [hf] at hlen; simp at hlen
    · rw [hf] at hn
      have hi : i ∈ l.filter q := by rw [hf]; simp
      have hj : j ∈ l.filter q := by rw [hf]; simp
      have hij : i ≠ j := by
        intro heq
        rw [heq] at hn
        simp at hn
      exact ⟨i, (List.mem_filter.1 hi).1, j, (List.mem_filter.1 hj).1, hij,
        (List.mem_filter.1 hi).2, (List.mem_filter.1 hj).2⟩
  · rintro ⟨i, hi, j, hj, hij, qi, qj⟩
    have hsub : [i, j] ⊆ l.filter q := by
      intro x hx
      simp only [List.mem_cons, List.mem_singleton, List.not_mem_nil, or_false] at hx
      rcases hx with rfl | rfl
      · exact List.mem_filter.2 ⟨hi, qi⟩
      · exact List.mem_filter.2 ⟨hj, qj⟩
    have hnd : [i, j].Nodup := by simp [hij]
    exact (List.subperm_of_subset hnd hsub).length_le

theorem two_le_count_tallyOf (rs : List Int) (h : ∀ r ∈ rs, 1 ≤ r ∧ r ≤ 13) (x : Nat)
    (hx : 0 < x) :
    2 ≤ (tallyOf rs).count x ↔ ∃ r s, r ≠ s ∧ rs.count r = x ∧ rs.count s = x := by
  unfold tallyOf
  rw [List.count, List.countP_map, two_le_countP _ (List.nodup_range 13)]
  constructor
  · rintro ⟨i, _, j, _, hij, hi, hj⟩
    refine ⟨(i : Int) + 1, (j : Int) + 1, by omega, ?_, ?_⟩
    · simpa using hi
    · simpa using hj
  · rintro ⟨r, s, hrs, hr, hs⟩
    have hmr : r ∈ rs := List.count_pos_iff.1 (by omega)
    have hms : s ∈ rs := List.count_pos_iff.1 (by omega)
    obtain ⟨r1, r13⟩ := h r hmr
    obtain ⟨s1, s13⟩ := h s hms
    have er : (((r - 1).toNat : Nat) : Int) + 1 = r := by omega
    have es : (((s - 1).toNat : Nat) : Int) + 1 = s := by omega
    refine ⟨(r - 1).toNat, List.mem_range.2 (by omega), (s - 1).toNat,
      List.mem_range.2 (by omega), by omega, ?_, ?_⟩
    · simp only [Function.comp_apply, beq_iff_eq, er]
      exact hr
    · simp only [Function.comp_apply, beq_iff_eq, es]
      exact hs

theorem cells_le_one_iff_nodup (rs : List Int) (h : ∀ r ∈ rs, 1 ≤ r ∧ r ≤ 13) :
    (∀ x ∈ tallyOf rs, x ≤ 1) ↔ rs.Nodup := by
  rw [List.nodup_iff_count_le_one]
  constructor
  · intro hall r
    by_cases hr : r ∈ rs
    · obtain ⟨h1, h13⟩ := h r hr
      apply hall
      refine List.mem_map.2 ⟨(r - 1).toNat, List.mem_range.2 (by omega), ?_⟩
      have : (((r - 1).toNat : Nat) : Int) + 1 = r := by omega
      rw [this]
    · rw [List.count_eq_zero_of_not_mem hr]
      omega
  · intro hall x hx
    obtain ⟨i, _, rfl⟩ := List.mem_map.1 hx
    exact hall _

/-! ## The straight loop -/

theorem allUpTo_sound : ∀ (n c : Nat) (f : List Bool → Bool), allUpTo n c f = true →
    ∀ l : List Bool, l.length = n → l.count true ≤ c → f l = true := by
  intro n
  induction n with
  | zero =>
    intro c f h l hl _
    have : l = [] := List.length_eq_zero.1 hl
    subst this
    simpa [allUpTo] using h
  | succ n ih =>
    intro c f h l hl hc
    rcases l with _ | ⟨b, l⟩
    · simp at hl
    · have hl2 : l.length = n := by simpa using hl
      cases b with
      | false =>
        have hc2 : l.count true ≤ c := by simpa [List.count_cons] using hc
        simp only [allUpTo, Bool.and_eq_true] at h
        exact ih c (fun l => f (false :: l)) h.1 l hl2 hc2
      | true =>
        rcases c with _ | c
        · simp [List.count_cons] at hc
        · have hc2 : l.count true ≤ c := by
            simp only [List.count_cons, beq_self_eq_true, if_true] at hc
            omega
          simp only [allUpTo, Bool.and_eq_true] at h
          exact ih c (fun l => f (true :: l)) h.2 l hl2 hc2

set_option maxRecDepth 100000 in
theorem run_table : allUpTo 13 5 runCheck = true := by
  decide!

theorem run_five (p : List Bool) (hl : p.length = 13) (hc : p.count true ≤ 5)
    (h : runScanB p = 5) : p ∈ windows := by
  have := allUpTo_sound 13 5 runCheck run_table p hl hc
  simp only [runCheck, Bool.and_eq_true, h, if_true, decide_eq_true_eq] at this
  exact this.1

theorem run_four (p : List Bool) (hl : p.length = 13) (hc : p.count true ≤ 5)
    (h : runScanB p = 4) (hh : p.head? = some true) : p = broadwayPattern := by
  have := allUpTo_sound 13 5 runCheck run_table p hl hc
  simp only [runCheck, Bool.and_eq_true, h, hh, and_self, if_true, decide_eq_true_eq] at this
  exact this.2

theorem windows_run : ∀ w ∈ windows, runScanB w = 5 := by decide

theorem broadway_run : runScanB broadwayPattern = 4 ∧ broadwayPattern.head? = some true := by
  decide

theorem windows_eq : windows = (List.range 9).map (fun (j : Nat) =>
    patternOf [(j : Int) + 1, (j : Int) + 1 + 1, (j : Int) + 1 + 2, (j : Int) + 1 + 3,
      (j : Int) + 1 + 4]) := by
  decide

theorem broadway_eq : broadwayPattern = patternOf [10, 11, 12, 13, 1] := by decide

/-! ## Patterns and rank lists -/

theorem patternOf_eq_map (rs : List Int) :
    patternOf rs = (List.range 13).map (fun (i : Nat) => decide ((i : Int) + 1 ∈ rs)) := by
  unfold patternOf tallyOf
  rw [List.map_map]
  apply List.map_congr_left
  intro i _
  simp [List.count_pos_iff]

theorem patternOf_perm (rs ts : List Int) (h : rs.Perm ts) : patternOf rs = patternOf ts := by
  rw [patternOf_eq_map, patternOf_eq_map]
  apply List.map_congr_left
  intro i _
  simp [h.mem_iff]

theorem perm_of_patternOf_eq (rs ts : List Int)
    (hts : ∀ r ∈ ts, 1 ≤ r ∧ r ≤ 13) (hnd : ts.Nodup) (hlen : rs.length = ts.length)
    (h : patternOf rs = patternOf ts) : rs.Perm ts := by
  rw [patternOf_eq_map, patternOf_eq_map] at h
  have hsub : ts ⊆ rs := by
    intro r hr
    obtain ⟨h1, h13⟩ := hts r hr
    have hi : (r - 1).toNat ∈ List.range 13 := List.mem_range.2 (by omega)
    have := List.map_inj_left.1 h _ hi
    have e : (((r - 1).toNat : Nat) : Int) + 1 = r := by omega
    rw [e] at this
    simpa [hr] using this
  exact ((List.subperm_of_subset hnd hsub).perm_of_length_le (by omega)).symm

theorem runScan_tally (t : List Nat) :
    runScan (t.map some) = runScanB (t.map (fun x => decide (0 < x))) := by
  unfold runScan runScanB
  rw [List.foldl_map, List.foldl_map]
  rfl

theorem aceCell_tally (rs : List Int) :
    cellGt (aceCell ((tallyOf rs).map some)) 0 = true ↔ (patternOf rs).head? = some true := by
  have hr : List.range 13 = [0, 1, 2, 3, 4, 5, 6, 7, 8, 9, 10, 11, 12] := by decide
  unfold patternOf tallyOf
  rw [hr]
  simp [aceCell, cellGt]

theorem patternOf_length (rs : List Int) : (patternOf rs).length = 13 := by
  simp [patternOf, tallyOf]

theorem patternOf_count (rs : List Int) :
    (patternOf rs).count true = (tallyOf rs).countP (fun x => decide (0 < x)) := by
  unfold patternOf
  rw [List.count, List.countP_map]
  congr 1
  funext x
  simp

theorem patternOf_count_le (rs : List Int) (hrs : ∀ r ∈ rs, 1 ≤ r ∧ r ≤ 13)
    (hlen : rs.length = 5) : (patternOf rs).count true ≤ 5 := by
  have hs : (tallyOf rs).sum = 5 := by rw [tallyOf_sum rs hrs, hlen]
  have hf := (setFacts_of_sum (tallyOf rs) hs).2.2.2.2.2.2.2
  rw [patternOf_count]
  simp only [List.mem_cons, Prod.mk.injEq, List.mem_singleton, List.not_mem_nil, or_false] at hf
  omega

theorem run_five_iff (rs : List Int) (hrs : ∀ r ∈ rs, 1 ≤ r ∧ r ≤ 13) (hlen : rs.length = 5) :
    runScanB (patternOf rs) = 5 ↔
      ∃ k : Int, 1 ≤ k ∧ k ≤ 9 ∧ rs.Perm [k, k + 1, k + 2, k + 3, k + 4] := by
  constructor
  · intro h
    have hw := run_five _ (patternOf_length rs) (patternOf_count_le rs hrs hlen) h
    rw [windows_eq] at hw
    obtain ⟨j, hj, hp⟩ := List.mem_map.1 hw
    have hj9 : j < 9 := List.mem_range.1 hj
    refine ⟨(j : Int) + 1, by omega, by omega, ?_⟩
    apply perm_of_patternOf_eq rs _ _ _ (by simp [hlen]) hp.symm
    · intro r hr
      simp only [List.mem_cons, List.mem_singleton, List.not_mem_nil, or_false] at hr
      omega
    · simp only [List.nodup_cons, List.mem_cons, List.mem_singleton, List.not_mem_nil,
        or_false, not_or, List.nodup_nil, and_true, not_false_eq_true]
      omega
  · rintro ⟨k, h1, h9, hperm⟩
    rw [patternOf_perm _ _ hperm]
    apply windows_run
    rw [windows_eq]
    refine List.mem_map.2 ⟨(k - 1).toNat, List.mem_range.2 (by omega), ?_⟩
    have e : (((k - 1).toNat : Nat) : Int) + 1 = k := by omega
    rw [e]

theorem run_four_iff (rs : List Int) (hrs : ∀ r ∈ rs, 1 ≤ r ∧ r ≤ 13) (hlen : rs.length = 5) :
    (runScanB (patternOf rs) = 4 ∧ (patternOf rs).head? = some true) ↔
      rs.Perm [10, 11, 12, 13, 1] := by
  constructor
  · rintro ⟨h4, hh⟩
    have hb := run_four _ (patternOf_length rs) (patternOf_count_le rs hrs hlen) h4 hh
    rw [broadway_eq] at hb
    exact perm_of_patternOf_eq rs _ (by decide) (by decide) (by simp [hlen]) hb
  · intro hperm
    rw [patternOf_perm _ _ hperm, ← broadway_eq]
    exact broadway_run

/-! ## The label as a function of the flags -/

theorem resolve_finish (o : String) (f st br : Bool) :
    finish (resolve o f st br) =
      if f = true then
        (if st = true then (if br = true then "royalflush" else "straightflush") else "flush")
      else if st = true then "straight" else finish o := by
  cases f <;> cases st <;> cases br <;> simp [resolve, finish]

theorem finish_setOutcome (m n : Nat) :
    finish (setOutcome m n) =
      if m = 4 then "fourofakind"
      else if m = 3 ∧ n = 2 then "fullhouse"
      else if m = 3 ∧ n = 3 then "threeofakind"
      else if m = 2 ∧ n = 3 then "twopair"
      else if m = 2 ∧ n = 4 then "pair"
      else "highcard" := by
  unfold setOutcome finish
  split_ifs <;> first | rfl | omega | simp_all

theorem classify_eq (arr : List (Option Nat)) (f : Bool) :
    classify arr f =
      if f = true then
        (if isStraightOf arr = true then
          (if isBroadwayOf arr = true then "royalflush" else "straightflush")
         else "flush")
      else if isStraightOf arr = true then "straight"
      else if (setScan arr).1 = 4 then "fourofakind"
      else if (setScan arr).1 = 3 ∧ (setScan arr).2 = 2 then "fullhouse"
      else if (setScan arr).1 = 3 ∧ (setScan arr).2 = 3 then "threeofakind"
      else if (setScan arr).1 = 2 ∧ (setScan arr).2 = 3 then "twopair"
      else if (setScan arr).1 = 2 ∧ (setScan arr).2 = 4 then "pair"
      else "highcard" := by
  unfold classify
  rw [resolve_finish, finish_setOutcome]

theorem classify_mem_labels (arr : List (Option Nat)) (f : Bool) :
    classify arr f ∈ labels := by
  rw [classify_eq]
  unfold labels
  split_ifs <;> simp

theorem classify_royalflush (arr : List (Option Nat)) (f : Bool) :
    classify arr f = "royalflush" ↔
      f = true ∧ isStraightOf arr = true ∧ isBroadwayOf arr = true := by
  rw [classify_eq]
  split_ifs <;> simp_all

theorem classify_straightflush (arr : List (Option Nat)) (f : Bool) :
    classify arr f = "straightflush" ↔
      f = true ∧ isStraightOf arr = true ∧ isBroadwayOf arr = false := by
  rw [classify_eq]
  split_ifs <;> simp_all

theorem classify_flush (arr : List (Option Nat)) (f : Bool) :
    classify arr f = "flush" ↔ f = true ∧ isStraightOf arr = false := by
  rw [classify_eq]
  split_ifs <;> simp_all

theorem classify_straight (arr : List (Option Nat)) (f : Bool) :
    classify arr f = "straight" ↔ f = false ∧ isStraightOf arr = true := by
  rw [classify_eq]
  split_ifs <;> simp_all

theorem classify_fourofakind (arr : List (Option Nat)) (f : Bool) :
    classify arr f = "fourofakind" ↔
      f = false ∧ isStraightOf arr = false ∧ (setScan arr).1 = 4 := by
  rw [classify_eq]
  split_ifs <;> simp_all

theorem classify_fullhouse (arr : List (Option Nat)) (f : Bool) :
    classify arr f = "fullhouse" ↔
      f = false ∧ isStraightOf arr = false ∧ (setScan arr).1 = 3 ∧ (setScan arr).2 = 2 := by
  rw [classify_eq]
  split_ifs <;> simp_all

theorem classify_threeofakind (arr : List (Option Nat)) (f : Bool) :
    classify arr f = "threeofakind" ↔
      f = false ∧ isStraightOf arr = false ∧ (setScan arr).1 = 3 ∧ (setScan arr).2 = 3 := by
  rw [classify_eq]
  split_ifs <;> simp_all

theorem classify_twopair (arr : List (Option Nat)) (f : Bool) :
    classify arr f = "twopair" ↔
      f = false ∧ isStraightOf arr = false ∧ (setScan arr).1 = 2 ∧ (setScan arr).2 = 3 := by
  rw [classify_eq]
  split_ifs <;> simp_all

theorem classify_pair (arr : List (Option Nat)) (f : Bool) :
    classify arr f = "pair" ↔
      f = false ∧ isStraightOf arr = false ∧ (setScan arr).1 = 2 ∧ (setScan arr).2 = 4 := by
  rw [classify_eq]
  split_ifs <;> simp_all

/-! ## The flags of a hand -/

theorem isFlush_cons (c : Card) (rest : List Card) :
    isFlush (c :: rest) = some (decide (sameSuit (c :: rest))) := by
  simp only [isFlush, Option.some.injEq]
  rw [Bool.eq_iff_iff]
  simp only [List.all_eq_true, Bool.not_eq_true', bne_eq_false_iff_eq, decide_eq_true_eq,
    sameSuit]
  constructor
  · intro h x hx y hy
    have hx' : x.suit = c.suit := by
      rcases List.mem_cons.1 hx with rfl | hx
      · rfl
      · exact h x hx
    have hy' : y.suit = c.suit := by
      rcases List.mem_cons.1 hy with rfl | hy
      · rfl
      · exact h y hy
    rw [hx', hy']
  · intro h x hx
    exact h x (List.mem_cons_of_mem _ hx) c (List.mem_cons_self _ _)

theorem evaluate_eq (hand : List Card) (hne : hand ≠ []) :
    evaluatePokerHand hand =
      some (classify (instancesOfRank hand) (decide (sameSuit hand))) := by
  rcases hand with _ | ⟨c, rest⟩
  · exact absurd rfl hne
  · unfold evaluatePokerHand
    rw [isFlush_cons]

theorem ne_nil_of_wellFormed (hand : List Card) (hw : wellFormed hand) : hand ≠ [] := by
  intro h
  rw [h] at hw
  simp [wellFormed] at hw

theorem ranks_length (hand : List Card) : (ranks hand).length = hand.length := by
  simp [ranks]

theorem ranks_nodup_of_sameSuit (hand : List Card)
    (hp : hand.Pairwise (fun c d => ¬ (c.suit = d.suit ∧ c.rank = d.rank)))
    (hs : sameSuit hand) : (ranks hand).Nodup := by
  unfold ranks List.Nodup
  rw [List.pairwise_map]
  refine hp.imp_of_mem ?_
  intro c d hc hd hcd hrank
  exact hcd ⟨hs c hc d hd, hrank⟩

theorem isBroadwayOf_iff (hand : List Card) (hlen : hand.length = 5)
    (hr : ∀ c ∈ hand, 1 ≤ c.rank ∧ c.rank ≤ 13) :
    isBroadwayOf (instancesOfRank hand) = true ↔ aceHighSequence hand := by
  have hrs := ranks_range hand hr
  have hl : (ranks hand).length = 5 := by rw [ranks_length, hlen]
  unfold isBroadwayOf aceHighSequence
  rw [instancesOfRank_eq hand hr, runScan_tally, Bool.and_eq_true, decide_eq_true_eq,
    aceCell_tally]
  exact run_four_iff (ranks hand) hrs hl

theorem runScan_five_iff (hand : List Card) (hlen : hand.length = 5)
    (hr : ∀ c ∈ hand, 1 ≤ c.rank ∧ c.rank ≤ 13) :
    runScan (instancesOfRank hand) = 5 ↔ lowSequence hand := by
  have hrs := ranks_range hand hr
  have hl : (ranks hand).length = 5 := by rw [ranks_length, hlen]
  unfold lowSequence
  rw [instancesOfRank_eq hand hr, runScan_tally]
  exact run_five_iff (ranks hand) hrs hl

theorem isStraightOf_iff (hand : List Card) (hlen : hand.length = 5)
    (hr : ∀ c ∈ hand, 1 ≤ c.rank ∧ c.rank ≤ 13) :
    isStraightOf (instancesOfRank hand) = true ↔ lowSequence hand ∨ aceHighSequence hand := by
  have hb := isBroadwayOf_iff hand hlen hr
  have h5 := runScan_five_iff hand hlen hr
  unfold isStraightOf finalRun
  rw [decide_eq_true_eq]
  by_cases hbw : isBroadwayOf (instancesOfRank hand) = true
  · have h4 : runScan (instancesOfRank hand) = 4 := by
      unfold isBroadwayOf at hbw
      rw [Bool.and_eq_true, decide_eq_true_eq] at hbw
      exact hbw.1
    rw [if_pos hbw, h4]
    exact ⟨fun _ => Or.inr (hb.1 hbw), fun _ => rfl⟩
  · rw [if_neg hbw, h5]
    constructor
    · exact fun h => Or.inl h
    · rintro (h | h)
      · exact h
      · exact absurd (hb.2 h) hbw

theorem nodup_of_sequence (hand : List Card)
    (h : lowSequence hand ∨ aceHighSequence hand) : (ranks hand).Nodup := by
  rcases h with ⟨k, _, _, hp⟩ | hp
  · rw [hp.nodup_iff]
    simp only [List.nodup_cons, List.mem_cons, List.mem_singleton, List.not_mem_nil,
      or_false, not_or, List.nodup_nil, and_true, not_false_eq_true]
    omega
  · unfold aceHighSequence at hp
    rw [hp.nodup_iff]
    decide

theorem not_low_of_aceHigh (hand : List Card) (h : aceHighSequence hand) :
    ¬ lowSequence hand := by
  rintro ⟨k, h1, h9, hp⟩
  have h13 : (13 : Int) ∈ ranks hand := by
    unfold aceHighSequence at h
    rw [h.mem_iff]
    decide
  have h1' : (1 : Int) ∈ ranks hand := by
    unfold aceHighSequence at h
    rw [h.mem_iff]
    decide
  rw [hp.mem_iff] at h13 h1'
  simp only [List.mem_cons, List.mem_singleton, List.not_mem_nil, or_false] at h13 h1'
  omega

theorem setFacts_hand (hand : List Card) (hlen : hand.length = 5)
    (hr : ∀ c ∈ hand, 1 ≤ c.rank ∧ c.rank ≤ 13) :
    setFacts (setScan (instancesOfRank hand)).1 (setScan (instancesOfRank hand)).2
      (tallyOf (ranks hand)) := by
  have hs : (tallyOf (ranks hand)).sum = 5 := by
    rw [tallyOf_sum _ (ranks_range hand hr), ranks_length, hlen]
  rw [instancesOfRank_eq hand hr, setScan_eq]
  exact setFacts_of_sum _ hs

theorem paired_hand (hand : List Card) (hw : wellFormed hand) (r : Int)
    (h2 : 2 ≤ (ranks hand).count r) :
    decide (sameSuit hand) = false ∧ isStraightOf (instancesOfRank hand) = false := by
  obtain ⟨hlen, hr, _, hp⟩ := hw
  have hnd : ¬ (ranks hand).Nodup := by
    intro hn
    have := List.nodup_iff_count_le_one.1 hn r
    omega
  constructor
  · rw [decide_eq_false_iff_not]
    exact fun hs => hnd (ranks_nodup_of_sameSuit hand hp hs)
  · rw [Bool.eq_false_iff]
    intro hst
    exact hnd (nodup_of_sequence hand ((isStraightOf_iff hand hlen hr).1 hst))

/-! ## The concrete hands of the specification -/

theorem documented_examples :
    evaluatePokerHand
        [⟨"spade", 1⟩, ⟨"heart", 1⟩, ⟨"diamond", 1⟩, ⟨"club", 13⟩, ⟨"spade", 13⟩] =
      some "fullhouse" ∧
    evaluatePokerHand
        [⟨"spade", 2⟩, ⟨"heart", 2⟩, ⟨"diamond", 5⟩, ⟨"club", 9⟩, ⟨"spade", 13⟩] =
      some "pair" ∧
    evaluatePokerHand
        [⟨"spade", 4⟩, ⟨"heart", 4⟩, ⟨"diamond", 4⟩, ⟨"club", 4⟩, ⟨"spade", 9⟩] =
      some "fourofakind" ∧
    evaluatePokerHand
        [⟨"heart", 10⟩, ⟨"heart", 11⟩, ⟨"heart", 12⟩, ⟨"heart", 13⟩, ⟨"heart", 1⟩] =
      some "royalflush" ∧
    evaluatePokerHand
        [⟨"club", 5⟩, ⟨"club", 6⟩, ⟨"club", 7⟩, ⟨"club", 8⟩, ⟨"club", 9⟩] =
      some "straightflush" ∧
    evaluatePokerHand
        [⟨"club", 1⟩, ⟨"diamond", 2⟩, ⟨"spade", 3⟩, ⟨"heart", 4⟩, ⟨"club", 5⟩] =
      some "straight" ∧
    evaluatePokerHand
        [⟨"spade", 2⟩, ⟨"heart", 7⟩, ⟨"diamond", 9⟩, ⟨"club", 11⟩, ⟨"spade", 13⟩] =
      some "highcard" ∧
    evaluatePokerHand
        [⟨"spade", 2⟩, ⟨"spade", 4⟩, ⟨"spade", 6⟩, ⟨"spade", 9⟩, ⟨"spade", 13⟩] =
      some "flush" := by
  decide

/-! ## The claims about well-formed hands -/

/-- Claim C1: for every well-formed hand `evaluatePokerHand` returns, and the value it
returns is one of the ten documented labels (so never the empty string). -/
theorem evaluatePokerHand_total (hand : List Card) (hw : wellFormed hand) :
    ∃ label, evaluatePokerHand hand = some label ∧ label ∈ labels ∧ label ≠ "" := by
  refine ⟨classify (instancesOfRank hand) (decide (sameSuit hand)),
    evaluate_eq hand (ne_nil_of_wellFormed hand hw), classify_mem_labels _ _, ?_⟩
  intro h
  have hm := classify_mem_labels (instancesOfRank hand) (decide (sameSuit hand))
  rw [h] at hm
  revert hm
  decide

theorem evaluatePokerHand_total_witness :
    wellFormed [⟨"spade", 2⟩, ⟨"heart", 7⟩, ⟨"diamond", 9⟩, ⟨"club", 11⟩, ⟨"spade", 13⟩] ∧
    ∃ label, evaluatePokerHand
        [⟨"spade", 2⟩, ⟨"heart", 7⟩, ⟨"diamond", 9⟩, ⟨"club", 11⟩, ⟨"spade", 13⟩] = some label ∧
      label ∈ labels ∧ label ≠ "" :=
  ⟨by decide, evaluatePokerHand_total _ (by decide)⟩

theorem tallyOf_perm (rs ts : List Int) (h : rs.Perm ts) : tallyOf rs = tallyOf ts := by
  unfold tallyOf
  apply List.map_congr_left
  intro i _
  exact h.count_eq _

/-- Claim C2: for every hand of five cards with ranks from 1 to 13 and every permutation
of its cards (the unchanged order included), the permuted hand gets the same result. -/
theorem evaluatePokerHand_perm (hand hand' : List Card) (hlen : hand.length = 5)
    (hr : ∀ c ∈ hand, 1 ≤ c.rank ∧ c.rank ≤ 13) (hp : hand.Perm hand') :
    evaluatePokerHand hand' = evaluatePokerHand hand := by
  have hne : hand ≠ [] := by
    intro h
    rw [h] at hlen
    simp at hlen
  have hne' : hand' ≠ [] := by
    intro h
    rw [h] at hp
    exact hne hp.eq_nil
  have hr' : ∀ c ∈ hand', 1 ≤ c.rank ∧ c.rank ≤ 13 := fun c hc => hr c (hp.mem_iff.2 hc)
  have hsuit : sameSuit hand' ↔ sameSuit hand := by
    unfold sameSuit
    constructor
    · intro h c hc d hd
      exact h c (hp.mem_iff.1 hc) d (hp.mem_iff.1 hd)
    · intro h c hc d hd
      exact h c (hp.mem_iff.2 hc) d (hp.mem_iff.2 hd)
  rw [evaluate_eq hand hne, evaluate_eq hand' hne', instancesOfRank_eq hand hr,
    instancesOfRank_eq hand' hr', tallyOf_perm (ranks hand') (ranks hand) (hp.symm.map _),
    decide_eq_decide.2 hsuit]

theorem evaluatePokerHand_perm_witness :
    ([⟨"spade", 2⟩, ⟨"heart", 2⟩, ⟨"diamond", 5⟩, ⟨"club", 9⟩, ⟨"spade", 13⟩] :
        List Card).length = 5 ∧
    (∀ c ∈ ([⟨"spade", 2⟩, ⟨"heart", 2⟩, ⟨"diamond", 5⟩, ⟨"club", 9⟩, ⟨"spade", 13⟩] :
        List Card), 1 ≤ c.rank ∧ c.rank ≤ 13) ∧
    List.Perm
      ([⟨"spade", 2⟩, ⟨"heart", 2⟩, ⟨"diamond", 5⟩, ⟨"club", 9⟩, ⟨"spade", 13⟩] : List Card)
      [⟨"spade", 13⟩, ⟨"heart", 2⟩, ⟨"diamond", 5⟩, ⟨"spade", 2⟩, ⟨"club", 9⟩] ∧
    evaluatePokerHand
        [⟨"spade", 13⟩, ⟨"heart", 2⟩, ⟨"diamond", 5⟩, ⟨"spade", 2⟩, ⟨"club", 9⟩] =
      evaluatePokerHand
        [⟨"spade", 2⟩, ⟨"heart", 2⟩, ⟨"diamond", 5⟩, ⟨"club", 9⟩, ⟨"spade", 13⟩] :=
  ⟨by decide, by decide, by decide,
    evaluatePokerHand_perm
      [⟨"spade", 2⟩, ⟨"heart", 2⟩, ⟨"diamond", 5⟩, ⟨"club", 9⟩, ⟨"spade", 13⟩]
      [⟨"spade", 13⟩, ⟨"heart", 2⟩, ⟨"diamond", 5⟩, ⟨"spade", 2⟩, ⟨"club", 9⟩]
      (by decide) (by decide) (by decide)⟩

/-- Claim C3: for every well-formed hand the result is "royalflush" exactly when all five
cards have the same suit and the five ranks are 10, jack, queen, king and ace. -/
theorem royalflush_iff (hand : List Card) (hw : wellFormed hand) :
    evaluatePokerHand hand = some "royalflush" ↔ sameSuit hand ∧ aceHighSequence hand := by
  have hne := ne_nil_of_wellFormed hand hw
  obtain ⟨hlen, hr, _, _⟩ := hw
  rw [evaluate_eq hand hne, Option.some.injEq, classify_royalflush, decide_eq_true_eq,
    isStraightOf_iff hand hlen hr, isBroadwayOf_iff hand hlen hr]
  constructor
  · exact fun h => ⟨h.1, h.2.2⟩
  · exact fun h => ⟨h.1, Or.inr h.2, h.2⟩

theorem royalflush_iff_witness :
    wellFormed [⟨"heart", 10⟩, ⟨"heart", 11⟩, ⟨"heart", 12⟩, ⟨"heart", 13⟩, ⟨"heart", 1⟩] ∧
    (evaluatePokerHand
        [⟨"heart", 10⟩, ⟨"heart", 11⟩, ⟨"heart", 12⟩, ⟨"heart", 13⟩, ⟨"heart", 1⟩] =
        some "royalflush" ↔
      sameSuit [⟨"heart", 10⟩, ⟨"heart", 11⟩, ⟨"heart", 12⟩, ⟨"heart", 13⟩, ⟨"heart", 1⟩] ∧
      aceHighSequence
        [⟨"heart", 10⟩, ⟨"heart", 11⟩, ⟨"heart", 12⟩, ⟨"heart", 13⟩, ⟨"heart", 1⟩]) :=
  ⟨by decide, royalflush_iff _ (by decide)⟩

/-- Claim C4: for every well-formed hand the result is "straightflush" exactly when all
five cards have the same suit and the ranks are `k` to `k+4` for some `k` from 1 to 9, the
ace counting low; a hand of 10, jack, queen, king and ace is never a "straightflush". -/
theorem straightflush_iff (hand : List Card) (hw : wellFormed hand) :
    (evaluatePokerHand hand = some "straightflush" ↔ sameSuit hand ∧ lowSequence hand) ∧
    (aceHighSequence hand → evaluatePokerHand hand ≠ some "straightflush") := by
  have hne := ne_nil_of_wellFormed hand hw
  obtain ⟨hlen, hr, _, _⟩ := hw
  have hb := isBroadwayOf_iff hand hlen hr
  have key : evaluatePokerHand hand = some "straightflush" ↔
      sameSuit hand ∧ lowSequence hand := by
    rw [evaluate_eq hand hne, Option.some.injEq, classify_straightflush, decide_eq_true_eq,
      isStraightOf_iff hand hlen hr, Bool.eq_false_iff, Ne, hb]
    constructor
    · rintro ⟨hs, hseq, hna⟩
      rcases hseq with h | h
      · exact ⟨hs, h⟩
      · exact absurd h hna
    · rintro ⟨hs, hlow⟩
      exact ⟨hs, Or.inl hlow, fun ha => not_low_of_aceHigh hand ha hlow⟩
  refine ⟨key, ?_⟩
  intro ha h
  exact not_low_of_aceHigh hand ha (key.1 h).2

theorem straightflush_iff_witness :
    wellFormed [⟨"club", 1⟩, ⟨"club", 2⟩, ⟨"club", 3⟩, ⟨"club", 4⟩, ⟨"club", 5⟩] ∧
    ((evaluatePokerHand
        [⟨"club", 1⟩, ⟨"club", 2⟩, ⟨"club", 3⟩, ⟨"club", 4⟩, ⟨"club", 5⟩] =
        some "straightflush" ↔
      sameSuit [⟨"club", 1⟩, ⟨"club", 2⟩, ⟨"club", 3⟩, ⟨"club", 4⟩, ⟨"club", 5⟩] ∧
      lowSequence [⟨"club", 1⟩, ⟨"club", 2⟩, ⟨"club", 3⟩, ⟨"club", 4⟩, ⟨"club", 5⟩]) ∧
     (aceHighSequence [⟨"club", 1⟩, ⟨"club", 2⟩, ⟨"club", 3⟩, ⟨"club", 4⟩, ⟨"club", 5⟩] →
      evaluatePokerHand
        [⟨"club", 1⟩, ⟨"club", 2⟩, ⟨"club", 3⟩, ⟨"club", 4⟩, ⟨"club", 5⟩] ≠
        some "straightflush")) :=
  ⟨by decide, straightflush_iff _ (by decide)⟩

/-- Claim C5: for every well-formed hand the result is "straight" exactly when the cards
are not all of one suit and the ranks are in sequence: `k` to `k+4` for some `k` from 1 to
9 (ace, 2, 3, 4, 5 included) or 10, jack, queen, king and ace. -/
theorem straight_iff (hand : List Card) (hw : wellFormed hand) :
    evaluatePokerHand hand = some "straight" ↔
      ¬ sameSuit hand ∧ (lowSequence hand ∨ aceHighSequence hand) := by
  have hne := ne_nil_of_wellFormed hand hw
  obtain ⟨hlen, hr, _, _⟩ := hw
  rw [evaluate_eq hand hne, Option.some.injEq, classify_straight, decide_eq_false_iff_not,
    isStraightOf_iff hand hlen hr]

theorem straight_iff_witness :
    wellFormed [⟨"club", 1⟩, ⟨"diamond", 2⟩, ⟨"spade", 3⟩, ⟨"heart", 4⟩, ⟨"club", 5⟩] ∧
    (evaluatePokerHand
        [⟨"club", 1⟩, ⟨"diamond", 2⟩, ⟨"spade", 3⟩, ⟨"heart", 4⟩, ⟨"club", 5⟩] =
        some "straight" ↔
      ¬ sameSuit [⟨"club", 1⟩, ⟨"diamond", 2⟩, ⟨"spade", 3⟩, ⟨"heart", 4⟩, ⟨"club", 5⟩] ∧
      (lowSequence [⟨"club", 1⟩, ⟨"diamond", 2⟩, ⟨"spade", 3⟩, ⟨"heart", 4⟩, ⟨"club", 5⟩] ∨
       aceHighSequence
        [⟨"club", 1⟩, ⟨"diamond", 2⟩, ⟨"spade", 3⟩, ⟨"heart", 4⟩, ⟨"club", 5⟩])) :=
  ⟨by decide, straight_iff _ (by decide)⟩

/-- Claim C6: for every well-formed hand the result is "flush" exactly when all five
cards have the same suit and the ranks are not in sequence (neither `k` to `k+4` for a
`k` from 1 to 9 nor 10, jack, queen, king and ace). -/
theorem flush_iff (hand : List Card) (hw : wellFormed hand) :
    evaluatePokerHand hand = some "flush" ↔
      sameSuit hand ∧ ¬ (lowSequence hand ∨ aceHighSequence hand) := by
  have hne := ne_nil_of_wellFormed hand hw
  obtain ⟨hlen, hr, _, _⟩ := hw
  rw [evaluate_eq hand hne, Option.some.injEq, classify_flush, decide_eq_true_eq,
    Bool.eq_false_iff, Ne, isStraightOf_iff hand hlen hr]

theorem flush_iff_witness :
    wellFormed [⟨"spade", 2⟩, ⟨"spade", 4⟩, ⟨"spade", 6⟩, ⟨"spade", 9⟩, ⟨"spade", 13⟩] ∧
    (evaluatePokerHand
        [⟨"spade", 2⟩, ⟨"spade", 4⟩, ⟨"spade", 6⟩, ⟨"spade", 9⟩, ⟨"spade", 13⟩] =
        some "flush" ↔
      sameSuit [⟨"spade", 2⟩, ⟨"spade", 4⟩, ⟨"spade", 6⟩, ⟨"spade", 9⟩, ⟨"spade", 13⟩] ∧
      ¬ (lowSequence [⟨"spade", 2⟩, ⟨"spade", 4⟩, ⟨"spade", 6⟩, ⟨"spade", 9⟩, ⟨"spade", 13⟩] ∨
       aceHighSequence
        [⟨"spade", 2⟩, ⟨"spade", 4⟩, ⟨"spade", 6⟩, ⟨"spade", 9⟩, ⟨"spade", 13⟩])) :=
  ⟨by decide, flush_iff _ (by decide)⟩

/-! ## The claims about sets of equal rank -/

/-- Claim C7: for every well-formed hand the result is "fourofakind" exactly when some
rank is held by exactly four of the five cards; and a "fourofakind" result never occurs
without a cell of the tally array holding 4. -/
theorem fourofakind_iff (hand : List Card) (hw : wellFormed hand) :
    (evaluatePokerHand hand = some "fourofakind" ↔ ∃ r, rankCount r hand = 4) ∧
    (evaluatePokerHand hand = some "fourofakind" → some 4 ∈ instancesOfRank hand) := by
  have hne := ne_nil_of_wellFormed hand hw
  have hw' := hw
  obtain ⟨hlen, hr, _, _⟩ := hw'
  have hrs := ranks_range hand hr
  have hf := (setFacts_hand hand hlen hr).1
  have hmem := mem_tallyOf (ranks hand) hrs 4 (by decide)
  have key : evaluatePokerHand hand = some "fourofakind" ↔ ∃ r, rankCount r hand = 4 := by
    rw [evaluate_eq hand hne, Option.some.injEq, classify_fourofakind, hf, hmem]
    simp only [rankCount_eq]
    constructor
    · exact fun h => h.2.2
    · rintro ⟨r, h4⟩
      obtain ⟨h1, h2⟩ := paired_hand hand hw r (by omega)
      exact ⟨h1, h2, r, h4⟩
  refine ⟨key, ?_⟩
  intro h
  obtain ⟨r, h4⟩ := key.1 h
  rw [rankCount_eq] at h4
  rw [instancesOfRank_eq hand hr]
  exact List.mem_map.2 ⟨4, hmem.2 ⟨r, h4⟩, rfl⟩

theorem fourofakind_iff_witness :
    wellFormed [⟨"spade", 4⟩, ⟨"heart", 4⟩, ⟨"diamond", 4⟩, ⟨"club", 4⟩, ⟨"spade", 9⟩] ∧
    ((evaluatePokerHand
        [⟨"spade", 4⟩, ⟨"heart", 4⟩, ⟨"diamond", 4⟩, ⟨"club", 4⟩, ⟨"spade", 9⟩] =
        some "fourofakind" ↔
      ∃ r, rankCount r
        [⟨"spade", 4⟩, ⟨"heart", 4⟩, ⟨"diamond", 4⟩, ⟨"club", 4⟩, ⟨"spade", 9⟩] = 4) ∧
     (evaluatePokerHand
        [⟨"spade", 4⟩, ⟨"heart", 4⟩, ⟨"diamond", 4⟩, ⟨"club", 4⟩, ⟨"spade", 9⟩] =
        some "fourofakind" →
      some 4 ∈ instancesOfRank
        [⟨"spade", 4⟩, ⟨"heart", 4⟩, ⟨"diamond", 4⟩, ⟨"club", 4⟩, ⟨"spade", 9⟩])) :=
  ⟨by decide, fourofakind_iff _ (by decide)⟩

/-- Claim C8: for every well-formed hand the result is "fullhouse" exactly when three
cards share one rank and the other two cards share a second, different rank. -/
theorem fullhouse_iff (hand : List Card) (hw : wellFormed hand) :
    evaluatePokerHand hand = some "fullhouse" ↔
      ∃ r s, r ≠ s ∧ rankCount r hand = 3 ∧ rankCount s hand = 2 := by
  have hne := ne_nil_of_wellFormed hand hw
  have hw' := hw
  obtain ⟨hlen, hr, _, _⟩ := hw'
  have hrs := ranks_range hand hr
  have hf := (setFacts_hand hand hlen hr).2.1
  rw [evaluate_eq hand hne, Option.some.injEq, classify_fullhouse, hf,
    mem_tallyOf (ranks hand) hrs 3 (by decide), mem_tallyOf (ranks hand) hrs 2 (by decide)]
  simp only [rankCount_eq]
  constructor
  · rintro ⟨_, _, ⟨r, h3⟩, ⟨s, h2⟩⟩
    refine ⟨r, s, ?_, h3, h2⟩
    intro hrs'
    rw [hrs'] at h3
    omega
  · rintro ⟨r, s, _, h3, h2⟩
    obtain ⟨h1, h2'⟩ := paired_hand hand hw r (by omega)
    exact ⟨h1, h2', ⟨r, h3⟩, ⟨s, h2⟩⟩

theorem fullhouse_iff_witness :
    wellFormed [⟨"spade", 1⟩, ⟨"heart", 1⟩, ⟨"diamond", 1⟩, ⟨"club", 13⟩, ⟨"spade", 13⟩] ∧
    (evaluatePokerHand
        [⟨"spade", 1⟩, ⟨"heart", 1⟩, ⟨"diamond", 1⟩, ⟨"club", 13⟩, ⟨"spade", 13⟩] =
        some "fullhouse" ↔
      ∃ r s, r ≠ s ∧
        rankCount r
          [⟨"spade", 1⟩, ⟨"heart", 1⟩, ⟨"diamond", 1⟩, ⟨"club", 13⟩, ⟨"spade", 13⟩] = 3 ∧
        rankCount s
          [⟨"spade", 1⟩, ⟨"heart", 1⟩, ⟨"diamond", 1⟩, ⟨"club", 13⟩, ⟨"spade", 13⟩] = 2) :=
  ⟨by decide, fullhouse_iff _ (by decide)⟩

/-- Claim C9: for every well-formed hand the result is "threeofakind" exactly when three
cards share one rank and the two remaining cards have ranks different from that rank and
from each other. -/
theorem threeofakind_iff (hand : List Card) (hw : wellFormed hand) :
    evaluatePokerHand hand = some "threeofakind" ↔
      ∃ r s u, r ≠ s ∧ r ≠ u ∧ s ≠ u ∧
        rankCount r hand = 3 ∧ rankCount s hand = 1 ∧ rankCount u hand = 1 := by
  have hne := ne_nil_of_wellFormed hand hw
  have hw' := hw
  obtain ⟨hlen, hr, _, _⟩ := hw'
  have hrs := ranks_range hand hr
  have hf := (setFacts_hand hand hlen hr).2.2.1
  rw [evaluate_eq hand hne, Option.some.injEq, classify_threeofakind, hf,
    mem_tallyOf (ranks hand) hrs 3 (by decide),
    two_le_count_tallyOf (ranks hand) hrs 1 (by decide)]
  simp only [rankCount_eq]
  constructor
  · rintro ⟨_, _, ⟨r, h3⟩, ⟨s, u, hsu, hs1, hu1⟩⟩
    refine ⟨r, s, u, ?_, ?_, hsu, h3, hs1, hu1⟩
    · intro h
      rw [h] at h3
      omega
    · intro h
      rw [h] at h3
      omega
  · rintro ⟨r, s, u, _, _, hsu, h3, hs1, hu1⟩
    obtain ⟨h1, h2⟩ := paired_hand hand hw r (by omega)
    exact ⟨h1, h2, ⟨r, h3⟩, ⟨s, u, hsu, hs1, hu1⟩⟩

theorem threeofakind_iff_witness :
    wellFormed [⟨"spade", 7⟩, ⟨"heart", 7⟩, ⟨"diamond", 7⟩, ⟨"club", 2⟩, ⟨"spade", 12⟩] ∧
    (evaluatePokerHand
        [⟨"spade", 7⟩, ⟨"heart", 7⟩, ⟨"diamond", 7⟩, ⟨"club", 2⟩, ⟨"spade", 12⟩] =
        some "threeofakind" ↔
      ∃ r s u, r ≠ s ∧ r ≠ u ∧ s ≠ u ∧
        rankCount r
          [⟨"spade", 7⟩, ⟨"heart", 7⟩, ⟨"diamond", 7⟩, ⟨"club", 2⟩, ⟨"spade", 12⟩] = 3 ∧
        rankCount s
          [⟨"spade", 7⟩, ⟨"heart", 7⟩, ⟨"diamond", 7⟩, ⟨"club", 2⟩, ⟨"spade", 12⟩] = 1 ∧
        rankCount u
          [⟨"spade", 7⟩, ⟨"heart", 7⟩, ⟨"diamond", 7⟩, ⟨"club", 2⟩, ⟨"spade", 12⟩] = 1) :=
  ⟨by decide, threeofakind_iff _ (by decide)⟩

/-- Claim C10: for every well-formed hand the result is "twopair" exactly when the hand
holds two pairs of different ranks (two ranks each held by exactly two cards) and a
fifth card of a third rank. -/
theorem twopair_iff (hand : List Card) (hw : wellFormed hand) :
    evaluatePokerHand hand = some "twopair" ↔
      ∃ r s u, r ≠ s ∧ u ≠ r ∧ u ≠ s ∧
        rankCount r hand = 2 ∧ rankCount s hand = 2 ∧ rankCount u hand = 1 := by
  have hne := ne_nil_of_wellFormed hand hw
  have hw' := hw
  obtain ⟨hlen, hr, _, _⟩ := hw'
  have hrs := ranks_range hand hr
  have hf := (setFacts_hand hand hlen hr).2.2.2.1
  rw [evaluate_eq hand hne, Option.some.injEq, classify_twopair, hf,
    mem_tallyOf (ranks hand) hrs 1 (by decide),
    two_le_count_tallyOf (ranks hand) hrs 2 (by decide)]
  simp only [rankCount_eq]
  constructor
  · rintro ⟨_, _, ⟨r, s, hrs', hr2, hs2⟩, ⟨u, hu1⟩⟩
    refine ⟨r, s, u, hrs', ?_, ?_, hr2, hs2, hu1⟩
    · intro h
      rw [h] at hu1
      omega
    · intro h
      rw [h] at hu1
      omega
  · rintro ⟨r, s, u, hrs', _, _, hr2, hs2, hu1⟩
    obtain ⟨h1, h2⟩ := paired_hand hand hw r (by omega)
    exact ⟨h1, h2, ⟨r, s, hrs', hr2, hs2⟩, ⟨u, hu1⟩⟩

theorem twopair_iff_witness :
    wellFormed [⟨"spade", 3⟩, ⟨"heart", 3⟩, ⟨"diamond", 8⟩, ⟨"club", 8⟩, ⟨"spade", 11⟩] ∧
    (evaluatePokerHand
        [⟨"spade", 3⟩, ⟨"heart", 3⟩, ⟨"diamond", 8⟩, ⟨"club", 8⟩, ⟨"spade", 11⟩] =
        some "twopair" ↔
      ∃ r s u, r ≠ s ∧ u ≠ r ∧ u ≠ s ∧
        rankCount r
          [⟨"spade", 3⟩, ⟨"heart", 3⟩, ⟨"diamond", 8⟩, ⟨"club", 8⟩, ⟨"spade", 11⟩] = 2 ∧
        rankCount s
          [⟨"spade", 3⟩, ⟨"heart", 3⟩, ⟨"diamond", 8⟩, ⟨"club", 8⟩, ⟨"spade", 11⟩] = 2 ∧
        rankCount u
          [⟨"spade", 3⟩, ⟨"heart", 3⟩, ⟨"diamond", 8⟩, ⟨"club", 8⟩, ⟨"spade", 11⟩] = 1) :=
  ⟨by decide, twopair_iff _ (by decide)⟩

/-! ## Pairs and hands without a set -/

theorem three_le_countP (l : List Nat) (hl : l.Nodup) (q : Nat → Bool) :
    3 ≤ l.countP q ↔
      ∃ i ∈ l, ∃ j ∈ l, ∃ k ∈ l, i ≠ j ∧ i ≠ k ∧ j ≠ k ∧
        q i = true ∧ q j = true ∧ q k = true := by
  rw [List.countP_eq_length_filter]
  have hn : (l.filter q).Nodup := hl.filter _
  constructor
  · intro hlen
    rcases hf : l.filter q with _ | ⟨i, _ | ⟨j, _ | ⟨k, rest⟩⟩⟩
    · rw [hf] at hlen; simp at hlen
    · rw [hf] at hlen; simp at hlen
    · rw [hf] at hlen; simp at hlen
    · rw [hf] at hn
      have hi : i ∈ l.filter q := by rw [hf]; simp
      have hj : j ∈ l.filter q := by rw [hf]; simp
      have hk : k ∈ l.filter q := by rw [hf]; simp
      simp only [List.nodup_cons, List.mem_cons, not_or] at hn
      exact ⟨i, (List.mem_filter.1 hi).1, j, (List.mem_filter.1 hj).1, k,
        (List.mem_filter.1 hk).1, hn.1.1, hn.1.2.1, hn.2.1.1,
        (List.mem_filter.1 hi).2, (List.mem_filter.1 hj).2, (List.mem_filter.1 hk).2⟩
  · rintro ⟨i, hi, j, hj, k, hk, hij, hik, hjk, qi, qj, qk⟩
    have hsub : [i, j, k] ⊆ l.filter q := by
      intro x hx
      simp only [List.mem_cons, List.mem_singleton, List.not_mem_nil, or_false] at hx
      rcases hx with rfl | rfl | rfl
      · exact List.mem_filter.2 ⟨hi, qi⟩
      · exact List.mem_filter.2 ⟨hj, qj⟩
      · exact List.mem_filter.2 ⟨hk, qk⟩
    have hnd : [i, j, k].Nodup := by simp [hij, hik, hjk]
    exact (List.subperm_of_subset hnd hsub).length_le

theorem three_le_count_tallyOf (rs : List Int) (h : ∀ r ∈ rs, 1 ≤ r ∧ r ≤ 13) (x : Nat)
    (hx : 0 < x) :
    3 ≤ (tallyOf rs).count x ↔
      ∃ r s u, r ≠ s ∧ r ≠ u ∧ s ≠ u ∧ rs.count r = x ∧ rs.count s = x ∧ rs.count u = x := by
  unfold tallyOf
  rw [List.count, List.countP_map, three_le_countP _ (List.nodup_range 13)]
  constructor
  · rintro ⟨i, _, j, _, k, _, hij, hik, hjk, hi, hj, hk⟩
    refine ⟨(i : Int) + 1, (j : Int) + 1, (k : Int) + 1, by omega, by omega, by omega,
      ?_, ?_, ?_⟩
    · simpa using hi
    · simpa using hj
    · simpa using hk
  · rintro ⟨r, s, u, hrs, hru, hsu, hr, hs, hu⟩
    have hmr : r ∈ rs := List.count_pos_iff.1 (by omega)
    have hms : s ∈ rs := List.count_pos_iff.1 (by omega)
    have hmu : u ∈ rs := List.count_pos_iff.1 (by omega)
    obtain ⟨r1, r13⟩ := h r hmr
    obtain ⟨s1, s13⟩ := h s hms
    obtain ⟨u1, u13⟩ := h u hmu
    have er : (((r - 1).toNat : Nat) : Int) + 1 = r := by omega
    have es : (((s - 1).toNat : Nat) : Int) + 1 = s := by omega
    have eu : (((u - 1).toNat : Nat) : Int) + 1 = u := by omega
    refine ⟨(r - 1).toNat, List.mem_range.2 (by omega), (s - 1).toNat,
      List.mem_range.2 (by omega), (u - 1).toNat, List.mem_range.2 (by omega),
      by omega, by omega, by omega, ?_, ?_, ?_⟩
    · simp only [Function.comp_apply, beq_iff_eq, er]
      exact hr
    · simp only [Function.comp_apply, beq_iff_eq, es]
      exact hs
    · simp only [Function.comp_apply, beq_iff_eq, eu]
      exact hu

theorem no_five_of_a_rank (hand : List Card) (hw : wellFormed hand) (r : Int) :
    (ranks hand).count r ≠ 5 := by
  obtain ⟨hlen, _, hsuits, hp⟩ := hw
  intro h5
  have hall : ∀ b ∈ ranks hand, r = b := by
    apply List.count_eq_length.1
    rw [h5, ranks_length, hlen]
  have hrank : ∀ c ∈ hand, c.rank = r := fun c hc =>
    (hall c.rank (List.mem_map.2 ⟨c, hc, rfl⟩)).symm
  have hnd : (hand.map (fun c => c.suit)).Nodup := by
    unfold List.Nodup
    rw [List.pairwise_map]
    refine hp.imp_of_mem ?_
    intro c d hc hd hcd hsuit
    exact hcd ⟨hsuit, by rw [hrank c hc, hrank d hd]⟩
  have hsub : hand.map (fun c => c.suit) ⊆ suits := by
    intro s hs
    obtain ⟨c, hc, rfl⟩ := List.mem_map.1 hs
    exact hsuits c hc
  have hle := (List.subperm_of_subset hnd hsub).length_le
  rw [List.length_map, hlen] at hle
  revert hle
  decide

theorem classify_highcard (arr : List (Option Nat)) (f : Bool) :
    classify arr f = "highcard" ↔
      f = false ∧ isStraightOf arr = false ∧ (setScan arr).1 ≠ 4 ∧
        ¬ ((setScan arr).1 = 3 ∧ (setScan arr).2 = 2) ∧
        ¬ ((setScan arr).1 = 3 ∧ (setScan arr).2 = 3) ∧
        ¬ ((setScan arr).1 = 2 ∧ (setScan arr).2 = 3) ∧
        ¬ ((setScan arr).1 = 2 ∧ (setScan arr).2 = 4) := by
  rw [classify_eq]
  split_ifs <;> simp_all

theorem sets_of_wellFormed (hand : List Card) (hw : wellFormed hand) :
    (setScan (instancesOfRank hand)).1 ≠ 5 ∧
    ((setScan (instancesOfRank hand)).1, (setScan (instancesOfRank hand)).2) ∈
      [(4, 2), (3, 2), (3, 3), (2, 3), (2, 4), (1, 5)] := by
  have hw' := hw
  obtain ⟨hlen, hr, _, _⟩ := hw'
  have hrs := ranks_range hand hr
  obtain ⟨_, _, _, _, _, _, f7, f8⟩ := setFacts_hand hand hlen hr
  have h5 : ¬ ((setScan (instancesOfRank hand)).1 = 5 ∧
      (setScan (instancesOfRank hand)).2 = 1) := by
    rw [f7, mem_tallyOf (ranks hand) hrs 5 (by decide)]
    rintro ⟨r, h⟩
    exact no_five_of_a_rank hand hw r h
  simp only [List.mem_cons, Prod.mk.injEq, List.mem_singleton, List.not_mem_nil,
    or_false] at f8 ⊢
  generalize (setScan (instancesOfRank hand)).1 = m at h5 f8 ⊢
  generalize (setScan (instancesOfRank hand)).2 = n at h5 f8 ⊢
  omega

theorem nodup_iff_sets (hand : List Card) (hlen : hand.length = 5)
    (hr : ∀ c ∈ hand, 1 ≤ c.rank ∧ c.rank ≤ 13) :
    (ranks hand).Nodup ↔
      (setScan (instancesOfRank hand)).1 = 1 ∧ (setScan (instancesOfRank hand)).2 = 5 := by
  rw [(setFacts_hand hand hlen hr).2.2.2.2.2.1,
    cells_le_one_iff_nodup (ranks hand) (ranks_range hand hr)]

/-- Claim C11: for every well-formed hand the result is "pair" exactly when two cards
share a rank and the other three cards have ranks different from that rank and from
each other. -/
theorem pair_iff (hand : List Card) (hw : wellFormed hand) :
    evaluatePokerHand hand = some "pair" ↔
      ∃ r s u v, r ≠ s ∧ r ≠ u ∧ r ≠ v ∧ s ≠ u ∧ s ≠ v ∧ u ≠ v ∧
        rankCount r hand = 2 ∧ rankCount s hand = 1 ∧ rankCount u hand = 1 ∧
        rankCount v hand = 1 := by
  have hne := ne_nil_of_wellFormed hand hw
  have hw' := hw
  obtain ⟨hlen, hr, _, _⟩ := hw'
  have hrs := ranks_range hand hr
  have hf := (setFacts_hand hand hlen hr).2.2.2.2.1
  rw [evaluate_eq hand hne, Option.some.injEq, classify_pair, hf,
    mem_tallyOf (ranks hand) hrs 2 (by decide),
    three_le_count_tallyOf (ranks hand) hrs 1 (by decide)]
  simp only [rankCount_eq]
  constructor
  · rintro ⟨_, _, ⟨r, h2⟩, ⟨s, u, v, hsu, hsv, huv, hs1, hu1, hv1⟩⟩
    refine ⟨r, s, u, v, ?_, ?_, ?_, hsu, hsv, huv, h2, hs1, hu1, hv1⟩
    · intro h
      rw [h] at h2
      omega
    · intro h
      rw [h] at h2
      omega
    · intro h
      rw [h] at h2
      omega
  · rintro ⟨r, s, u, v, _, _, _, hsu, hsv, huv, h2, hs1, hu1, hv1⟩
    obtain ⟨h1, h2'⟩ := paired_hand hand hw r (by omega)
    exact ⟨h1, h2', ⟨r, h2⟩, ⟨s, u, v, hsu, hsv, huv, hs1, hu1, hv1⟩⟩

theorem pair_iff_witness :
    wellFormed [⟨"spade", 2⟩, ⟨"heart", 2⟩, ⟨"diamond", 5⟩, ⟨"club", 9⟩, ⟨"spade", 13⟩] ∧
    (evaluatePokerHand
        [⟨"spade", 2⟩, ⟨"heart", 2⟩, ⟨"diamond", 5⟩, ⟨"club", 9⟩, ⟨"spade", 13⟩] =
        some "pair" ↔
      ∃ r s u v, r ≠ s ∧ r ≠ u ∧ r ≠ v ∧ s ≠ u ∧ s ≠ v ∧ u ≠ v ∧
        rankCount r
          [⟨"spade", 2⟩, ⟨"heart", 2⟩, ⟨"diamond", 5⟩, ⟨"club", 9⟩, ⟨"spade", 13⟩] = 2 ∧
        rankCount s
          [⟨"spade", 2⟩, ⟨"heart", 2⟩, ⟨"diamond", 5⟩, ⟨"club", 9⟩, ⟨"spade", 13⟩] = 1 ∧
        rankCount u
          [⟨"spade", 2⟩, ⟨"heart", 2⟩, ⟨"diamond", 5⟩, ⟨"club", 9⟩, ⟨"spade", 13⟩] = 1 ∧
        rankCount v
          [⟨"spade", 2⟩, ⟨"heart", 2⟩, ⟨"diamond", 5⟩, ⟨"club", 9⟩, ⟨"spade", 13⟩] = 1) :=
  ⟨by decide, pair_iff _ (by decide)⟩

/-- Claim C12: for every well-formed hand the result is "highcard" exactly when the hand
forms none of the other combinations: the five ranks are pairwise distinct, the cards
are not all of one suit, and the ranks are not in sequence (neither `k` to `k+4` for a
`k` from 1 to 9 nor 10, jack, queen, king and ace). -/
theorem highcard_iff (hand : List Card) (hw : wellFormed hand) :
    evaluatePokerHand hand = some "highcard" ↔
      (ranks hand).Nodup ∧ ¬ sameSuit hand ∧ ¬ (lowSequence hand ∨ aceHighSequence hand) := by
  have hne := ne_nil_of_wellFormed hand hw
  have hsets := sets_of_wellFormed hand hw
  obtain ⟨hlen, hr, _, _⟩ := hw
  rw [evaluate_eq hand hne, Option.some.injEq, classify_highcard, decide_eq_false_iff_not,
    Bool.eq_false_iff, Ne, isStraightOf_iff hand hlen hr, nodup_iff_sets hand hlen hr]
  simp only [List.mem_cons, Prod.mk.injEq, List.mem_singleton, List.not_mem_nil,
    or_false] at hsets
  constructor
  · rintro ⟨hs, hseq, h4, h32, h33, h23, h24⟩
    refine ⟨?_, hs, hseq⟩
    rcases hsets.2 with h | h | h | h | h | h
    · exact absurd h.1 h4
    · exact absurd h h32
    · exact absurd h h33
    · exact absurd h h23
    · exact absurd h h24
    · exact h
  · rintro ⟨⟨hm, hn⟩, hs, hseq⟩
    refine ⟨hs, hseq, ?_, ?_, ?_, ?_, ?_⟩ <;> omega

theorem highcard_iff_witness :
    wellFormed [⟨"spade", 2⟩, ⟨"heart", 7⟩, ⟨"diamond", 9⟩, ⟨"club", 11⟩, ⟨"spade", 13⟩] ∧
    (evaluatePokerHand
        [⟨"spade", 2⟩, ⟨"heart", 7⟩, ⟨"diamond", 9⟩, ⟨"club", 11⟩, ⟨"spade", 13⟩] =
        some "highcard" ↔
      (ranks [⟨"spade", 2⟩, ⟨"heart", 7⟩, ⟨"diamond", 9⟩, ⟨"club", 11⟩, ⟨"spade", 13⟩]).Nodup ∧
      ¬ sameSuit [⟨"spade", 2⟩, ⟨"heart", 7⟩, ⟨"diamond", 9⟩, ⟨"club", 11⟩, ⟨"spade", 13⟩] ∧
      ¬ (lowSequence
          [⟨"spade", 2⟩, ⟨"heart", 7⟩, ⟨"diamond", 9⟩, ⟨"club", 11⟩, ⟨"spade", 13⟩] ∨
        aceHighSequence
          [⟨"spade", 2⟩, ⟨"heart", 7⟩, ⟨"diamond", 9⟩, ⟨"club", 11⟩, ⟨"spade", 13⟩])) :=
  ⟨by decide, highcard_iff _ (by decide)⟩

/-! ## The tally invariant -/

/-- Claim C13: for every hand whose ranks all lie between 1 and 13 the tally array
after the first loop consists of thirteen numbers, entry `r - 1` is the number of cards
of rank `r`, and the entries add up to the number of cards; for a well-formed hand they
add up to 5. -/
theorem tally_counts (hand : List Card) (hr : ∀ c ∈ hand, 1 ≤ c.rank ∧ c.rank ≤ 13) :
    ∃ t : List Nat, instancesOfRank hand = t.map some ∧ t.length = 13 ∧
      t.sum = hand.length ∧
      (∀ r : Int, 1 ≤ r → r ≤ 13 → t[(r - 1).toNat]? = some (rankCount r hand)) ∧
      (wellFormed hand → t.sum = 5) := by
  have hsum : (tallyOf (ranks hand)).sum = hand.length := by
    rw [tallyOf_sum _ (ranks_range hand hr), ranks_length]
  refine ⟨tallyOf (ranks hand), instancesOfRank_eq hand hr, tallyOf_length _, hsum, ?_, ?_⟩
  · intro r h1 h13
    have hlt : (r - 1).toNat < 13 := by omega
    have e : (((r - 1).toNat : Nat) : Int) + 1 = r := by omega
    unfold tallyOf
    rw [List.getElem?_map, List.getElem?_range hlt, Option.map_some', e, rankCount_eq]
  · intro hw
    rw [hsum, hw.1]

theorem tally_counts_witness :
    (∀ c ∈ ([⟨"spade", 4⟩, ⟨"heart", 4⟩, ⟨"diamond", 4⟩, ⟨"club", 4⟩, ⟨"spade", 9⟩] :
        List Card), 1 ≤ c.rank ∧ c.rank ≤ 13) ∧
    ∃ t : List Nat,
      instancesOfRank
          [⟨"spade", 4⟩, ⟨"heart", 4⟩, ⟨"diamond", 4⟩, ⟨"club", 4⟩, ⟨"spade", 9⟩] =
        t.map some ∧
      t.length = 13 ∧
      t.sum = ([⟨"spade", 4⟩, ⟨"heart", 4⟩, ⟨"diamond", 4⟩, ⟨"club", 4⟩, ⟨"spade", 9⟩] :
        List Card).length ∧
      (∀ r : Int, 1 ≤ r → r ≤ 13 → t[(r - 1).toNat]? = some (rankCount r
          [⟨"spade", 4⟩, ⟨"heart", 4⟩, ⟨"diamond", 4⟩, ⟨"club", 4⟩, ⟨"spade", 9⟩])) ∧
      (wellFormed [⟨"spade", 4⟩, ⟨"heart", 4⟩, ⟨"diamond", 4⟩, ⟨"club", 4⟩, ⟨"spade", 9⟩] →
        t.sum = 5) :=
  ⟨by decide, tally_counts _ (by decide)⟩

/-! ## The ace does not wrap around -/

theorem no_sequence_with_king_ace_two (hand : List Card) (h13 : (13 : Int) ∈ ranks hand)
    (h1 : (1 : Int) ∈ ranks hand) (h2 : (2 : Int) ∈ ranks hand) :
    ¬ (lowSequence hand ∨ aceHighSequence hand) := by
  rintro (⟨k, _, _, hp⟩ | hp)
  · rw [hp.mem_iff] at h13 h1
    simp only [List.mem_cons, List.mem_singleton, List.not_mem_nil, or_false] at h13 h1
    omega
  · unfold aceHighSequence at hp
    rw [hp.mem_iff] at h2
    revert h2
    decide

/-- Claim C14: the ace does not wrap around. A well-formed hand whose ranks are ace, 2, 3,
4 and king gets "flush" when all five suits are equal and "highcard" otherwise; and no
well-formed hand containing a king, an ace and a two gets "straight", "straightflush" or
"royalflush". -/
theorem ace_does_not_wrap (hand : List Card) (hw : wellFormed hand) :
    ((ranks hand).Perm [1, 2, 3, 4, 13] →
      evaluatePokerHand hand = some (if sameSuit hand then "flush" else "highcard")) ∧
    ((13 : Int) ∈ ranks hand → (1 : Int) ∈ ranks hand → (2 : Int) ∈ ranks hand →
      evaluatePokerHand hand ≠ some "straight" ∧
      evaluatePokerHand hand ≠ some "straightflush" ∧
      evaluatePokerHand hand ≠ some "royalflush") := by
  have hne := ne_nil_of_wellFormed hand hw
  have hw' := hw
  obtain ⟨hlen, hr, _, _⟩ := hw'
  have hst := isStraightOf_iff hand hlen hr
  constructor
  · intro hp
    have hnseq := no_sequence_with_king_ace_two hand
      (by rw [hp.mem_iff]; decide) (by rw [hp.mem_iff]; decide) (by rw [hp.mem_iff]; decide)
    have hnd : (ranks hand).Nodup := by
      rw [hp.nodup_iff]
      decide
    have hmn := (nodup_iff_sets hand hlen hr).1 hnd
    have hs : isStraightOf (instancesOfRank hand) = false := by
      rw [Bool.eq_false_iff, Ne, hst]
      exact hnseq
    rw [evaluate_eq hand hne, Option.some.injEq]
    by_cases hsuit : sameSuit hand
    · rw [if_pos hsuit, classify_flush, decide_eq_true_eq]
      exact ⟨hsuit, hs⟩
    · rw [if_neg hsuit, classify_highcard, decide_eq_false_iff_not]
      refine ⟨hsuit, hs, ?_, ?_, ?_, ?_, ?_⟩ <;> omega
  · intro h13 h1 h2
    have hnseq := no_sequence_with_king_ace_two hand h13 h1 h2
    have hs : isStraightOf (instancesOfRank hand) = false := by
      rw [Bool.eq_false_iff, Ne, hst]
      exact hnseq
    rw [evaluate_eq hand hne]
    simp only [Ne, Option.some.injEq, classify_straight, classify_straightflush,
      classify_royalflush, hs]
    simp

theorem ace_does_not_wrap_witness :
    wellFormed [⟨"club", 1⟩, ⟨"diamond", 2⟩, ⟨"spade", 3⟩, ⟨"heart", 4⟩, ⟨"club", 13⟩] ∧
    (((ranks [⟨"club", 1⟩, ⟨"diamond", 2⟩, ⟨"spade", 3⟩, ⟨"heart", 4⟩, ⟨"club", 13⟩]).Perm
        [1, 2, 3, 4, 13] →
      evaluatePokerHand
          [⟨"club", 1⟩, ⟨"diamond", 2⟩, ⟨"spade", 3⟩, ⟨"heart", 4⟩, ⟨"club", 13⟩] =
        some (if sameSuit
            [⟨"club", 1⟩, ⟨"diamond", 2⟩, ⟨"spade", 3⟩, ⟨"heart", 4⟩, ⟨"club", 13⟩]
          then "flush" else "highcard")) ∧
     ((13 : Int) ∈
        ranks [⟨"club", 1⟩, ⟨"diamond", 2⟩, ⟨"spade", 3⟩, ⟨"heart", 4⟩, ⟨"club", 13⟩] →
      (1 : Int) ∈
        ranks [⟨"club", 1⟩, ⟨"diamond", 2⟩, ⟨"spade", 3⟩, ⟨"heart", 4⟩, ⟨"club", 13⟩] →
      (2 : Int) ∈
        ranks [⟨"club", 1⟩, ⟨"diamond", 2⟩, ⟨"spade", 3⟩, ⟨"heart", 4⟩, ⟨"club", 13⟩] →
      evaluatePokerHand
          [⟨"club", 1⟩, ⟨"diamond", 2⟩, ⟨"spade", 3⟩, ⟨"heart", 4⟩, ⟨"club", 13⟩] ≠
        some "straight" ∧
      evaluatePokerHand
          [⟨"club", 1⟩, ⟨"diamond", 2⟩, ⟨"spade", 3⟩, ⟨"heart", 4⟩, ⟨"club", 13⟩] ≠
        some "straightflush" ∧
      evaluatePokerHand
          [⟨"club", 1⟩, ⟨"diamond", 2⟩, ⟨"spade", 3⟩, ⟨"heart", 4⟩, ⟨"club", 13⟩] ≠
        some "royalflush")) :=
  ⟨by decide, ace_does_not_wrap _ (by decide)⟩

/-! ## Hands that are not well-formed -/

/-- Claim C15, as stated, fails on the empty hand: its ranks all lie between 1 and 13,
but reading `hand[0].suit` throws, so no label is returned. -/
theorem empty_hand_fails :
    (∀ c ∈ ([] : List Card), 1 ≤ c.rank ∧ c.rank ≤ 13) ∧
    evaluatePokerHand [] = none ∧
    ¬ ∃ label, label ∈ labels ∧ evaluatePokerHand [] = some label := by
  refine ⟨by simp, rfl, ?_⟩
  rintro ⟨label, _, h⟩
  exact absurd h (by simp [evaluatePokerHand, isFlush])

/-- Claim C15, amended: for every hand that is not empty (of any length, duplicate cards
allowed) with all ranks between 1 and 13, `evaluatePokerHand` returns one of the ten
labels and does not fail. -/
theorem tolerates_nonempty (hand : List Card) (hne : hand ≠ [])
    (_hr : ∀ c ∈ hand, 1 ≤ c.rank ∧ c.rank ≤ 13) :
    ∃ label, label ∈ labels ∧ evaluatePokerHand hand = some label :=
  ⟨classify (instancesOfRank hand) (decide (sameSuit hand)), classify_mem_labels _ _,
    evaluate_eq hand hne⟩

theorem tolerates_nonempty_witness :
    ([⟨"spade", 2⟩, ⟨"spade", 2⟩, ⟨"heart", 9⟩] : List Card) ≠ [] ∧
    (∀ c ∈ ([⟨"spade", 2⟩, ⟨"spade", 2⟩, ⟨"heart", 9⟩] : List Card),
      1 ≤ c.rank ∧ c.rank ≤ 13) ∧
    ∃ label, label ∈ labels ∧
      evaluatePokerHand [⟨"spade", 2⟩, ⟨"spade", 2⟩, ⟨"heart", 9⟩] = some label :=
  ⟨by decide, by decide, tolerates_nonempty _ (by decide) (by decide)⟩

/-! ## Sets against flush and straight -/

theorem isFlush_true_iff (hand : List Card) (hne : hand ≠ []) :
    isFlush hand = some true ↔ sameSuit hand := by
  rcases hand with _ | ⟨c, rest⟩
  · exact absurd rfl hne
  · rw [isFlush_cons, Option.some.injEq, decide_eq_true_eq]

theorem setOutcome_eq_empty (m n : Nat)
    (h : (m, n) ∈ [(4, 2), (3, 2), (3, 3), (2, 3), (2, 4), (1, 5)]) :
    setOutcome m n = "" ↔ m = 1 ∧ n = 5 := by
  simp only [List.mem_cons, Prod.mk.injEq, List.mem_singleton, List.not_mem_nil,
    or_false] at h
  rcases h with ⟨rfl, rfl⟩ | ⟨rfl, rfl⟩ | ⟨rfl, rfl⟩ | ⟨rfl, rfl⟩ | ⟨rfl, rfl⟩ | ⟨rfl, rfl⟩ <;>
    decide

/-- Claim C16: for every well-formed hand, if the flush flag or the straight flag is true
then the five ranks are pairwise distinct, `largestSet` is 1 and `numberOfSets` is 5, and
the step on sets left `outcome` empty, so the final resolution replaces no set label. -/
theorem flags_imply_distinct (hand : List Card) (hw : wellFormed hand)
    (h : isFlush hand = some true ∨ isStraight hand = true) :
    (ranks hand).Nodup ∧ largestSet hand = 1 ∧ numberOfSets hand = 5 ∧
      setOutcome (largestSet hand) (numberOfSets hand) = "" := by
  have hne := ne_nil_of_wellFormed hand hw
  obtain ⟨hlen, hr, _, hp⟩ := hw
  have hnd : (ranks hand).Nodup := by
    rcases h with h | h
    · exact ranks_nodup_of_sameSuit hand hp ((isFlush_true_iff hand hne).1 h)
    · exact nodup_of_sequence hand ((isStraightOf_iff hand hlen hr).1 h)
  obtain ⟨hm, hn⟩ := (nodup_iff_sets hand hlen hr).1 hnd
  refine ⟨hnd, hm, hn, ?_⟩
  unfold largestSet numberOfSets
  rw [hm, hn]
  decide

theorem flags_imply_distinct_witness :
    wellFormed [⟨"heart", 10⟩, ⟨"heart", 11⟩, ⟨"heart", 12⟩, ⟨"heart", 13⟩, ⟨"heart", 1⟩] ∧
    (isFlush [⟨"heart", 10⟩, ⟨"heart", 11⟩, ⟨"heart", 12⟩, ⟨"heart", 13⟩, ⟨"heart", 1⟩] =
        some true ∨
      isStraight [⟨"heart", 10⟩, ⟨"heart", 11⟩, ⟨"heart", 12⟩, ⟨"heart", 13⟩, ⟨"heart", 1⟩] =
        true) ∧
    ((ranks
        [⟨"heart", 10⟩, ⟨"heart", 11⟩, ⟨"heart", 12⟩, ⟨"heart", 13⟩, ⟨"heart", 1⟩]).Nodup ∧
      largestSet
        [⟨"heart", 10⟩, ⟨"heart", 11⟩, ⟨"heart", 12⟩, ⟨"heart", 13⟩, ⟨"heart", 1⟩] = 1 ∧
      numberOfSets
        [⟨"heart", 10⟩, ⟨"heart", 11⟩, ⟨"heart", 12⟩, ⟨"heart", 13⟩, ⟨"heart", 1⟩] = 5 ∧
      setOutcome
        (largestSet
          [⟨"heart", 10⟩, ⟨"heart", 11⟩, ⟨"heart", 12⟩, ⟨"heart", 13⟩, ⟨"heart", 1⟩])
        (numberOfSets
          [⟨"heart", 10⟩, ⟨"heart", 11⟩, ⟨"heart", 12⟩, ⟨"heart", 13⟩, ⟨"heart", 1⟩]) = "") :=
  ⟨by decide, by decide, flags_imply_distinct _ (by decide) (by decide)⟩

/-- Claim C17: for every well-formed hand, after the second loop `largestSet` lies between
1 and 4, `numberOfSets` lies between 1 and 5, the two form one of the pairs (4,2), (3,2),
(3,3), (2,3), (2,4), (1,5), and the step on sets leaves `outcome` empty exactly when
`largestSet` is 1 and `numberOfSets` is 5. -/
theorem sets_range (hand : List Card) (hw : wellFormed hand) :
    1 ≤ largestSet hand ∧ largestSet hand ≤ 4 ∧
    1 ≤ numberOfSets hand ∧ numberOfSets hand ≤ 5 ∧
    (largestSet hand, numberOfSets hand) ∈ [(4, 2), (3, 2), (3, 3), (2, 3), (2, 4), (1, 5)] ∧
    (setOutcome (largestSet hand) (numberOfSets hand) = "" ↔
      largestSet hand = 1 ∧ numberOfSets hand = 5) := by
  have hmem := (sets_of_wellFormed hand hw).2
  have hempty := setOutcome_eq_empty _ _ hmem
  unfold largestSet numberOfSets
  refine ⟨?_, ?_, ?_, ?_, hmem, hempty⟩ <;>
    · simp only [List.mem_cons, Prod.mk.injEq, List.mem_singleton, List.not_mem_nil,
        or_false] at hmem
      omega

theorem sets_range_witness :
    wellFormed [⟨"spade", 3⟩, ⟨"heart", 3⟩, ⟨"diamond", 8⟩, ⟨"club", 8⟩, ⟨"spade", 11⟩] ∧
    (1 ≤ largestSet
        [⟨"spade", 3⟩, ⟨"heart", 3⟩, ⟨"diamond", 8⟩, ⟨"club", 8⟩, ⟨"spade", 11⟩] ∧
    largestSet
        [⟨"spade", 3⟩, ⟨"heart", 3⟩, ⟨"diamond", 8⟩, ⟨"club", 8⟩, ⟨"spade", 11⟩] ≤ 4 ∧
    1 ≤ numberOfSets
        [⟨"spade", 3⟩, ⟨"heart", 3⟩, ⟨"diamond", 8⟩, ⟨"club", 8⟩, ⟨"spade", 11⟩] ∧
    numberOfSets
        [⟨"spade", 3⟩, ⟨"heart", 3⟩, ⟨"diamond", 8⟩, ⟨"club", 8⟩, ⟨"spade", 11⟩] ≤ 5 ∧
    (largestSet
        [⟨"spade", 3⟩, ⟨"heart", 3⟩, ⟨"diamond", 8⟩, ⟨"club", 8⟩, ⟨"spade", 11⟩],
      numberOfSets
        [⟨"spade", 3⟩, ⟨"heart", 3⟩, ⟨"diamond", 8⟩, ⟨"club", 8⟩, ⟨"spade", 11⟩]) ∈
      [(4, 2), (3, 2), (3, 3), (2, 3), (2, 4), (1, 5)] ∧
    (setOutcome
        (largestSet
          [⟨"spade", 3⟩, ⟨"heart", 3⟩, ⟨"diamond", 8⟩, ⟨"club", 8⟩, ⟨"spade", 11⟩])
        (numberOfSets
          [⟨"spade", 3⟩, ⟨"heart", 3⟩, ⟨"diamond", 8⟩, ⟨"club", 8⟩, ⟨"spade", 11⟩]) = "" ↔
      largestSet
        [⟨"spade", 3⟩, ⟨"heart", 3⟩, ⟨"diamond", 8⟩, ⟨"club", 8⟩, ⟨"spade", 11⟩] = 1 ∧
      numberOfSets
        [⟨"spade", 3⟩, ⟨"heart", 3⟩, ⟨"diamond", 8⟩, ⟨"club", 8⟩, ⟨"spade", 11⟩] = 5)) :=
  ⟨by decide, sets_range _ (by decide)⟩

/-! ## The final resolution on any hand -/

theorem evaluate_cons (first : Card) (rest : List Card) :
    evaluatePokerHand (first :: rest) =
      some (classify (instancesOfRank (first :: rest))
        (rest.all (fun card => !(card.suit != first.suit)))) := rfl

theorem all_suits_iff (first : Card) (rest : List Card) :
    rest.all (fun card => !(card.suit != first.suit)) = true ↔
      ∀ c ∈ rest, c.suit = first.suit := by
  simp only [List.all_eq_true, Bool.not_eq_true', bne_eq_false_iff_eq]

/-- Claim C18: for every hand that is not empty with ranks between 1 and 13, duplicates
allowed: if every card has the suit of the first card the result is "flush",
"straightflush" or "royalflush" whatever the step on sets computed; if the straight flag
holds and the flush flag does not, the result is "straight"; if neither flag holds the
result is the set label when one was assigned and "highcard" otherwise. In particular a
single-suit hand of five cards holding a repeated rank is a "flush". -/
theorem resolution_precedence (first : Card) (rest : List Card)
    (hr : ∀ c ∈ first :: rest, 1 ≤ c.rank ∧ c.rank ≤ 13) :
    ((∀ c ∈ rest, c.suit = first.suit) →
      ∃ label, label ∈ ["flush", "straightflush", "royalflush"] ∧
        evaluatePokerHand (first :: rest) = some label) ∧
    (isStraight (first :: rest) = true → ¬ (∀ c ∈ rest, c.suit = first.suit) →
      evaluatePokerHand (first :: rest) = some "straight") ∧
    (isStraight (first :: rest) = false → ¬ (∀ c ∈ rest, c.suit = first.suit) →
      evaluatePokerHand (first :: rest) =
        some (if setOutcome (largestSet (first :: rest)) (numberOfSets (first :: rest)) ≠ ""
          then setOutcome (largestSet (first :: rest)) (numberOfSets (first :: rest))
          else "highcard")) ∧
    (rest.length = 4 → (∀ c ∈ rest, c.suit = first.suit) →
      ¬ (ranks (first :: rest)).Nodup →
      evaluatePokerHand (first :: rest) = some "flush") := by
  have hsuit := all_suits_iff first rest
  refine ⟨?_, ?_, ?_, ?_⟩
  · intro hs
    rw [evaluate_cons, hsuit.2 hs]
    unfold classify
    rw [resolve_finish]
    simp only [if_true]
    split_ifs
    · exact ⟨"royalflush", by decide, rfl⟩
    · exact ⟨"straightflush", by decide, rfl⟩
    · exact ⟨"flush", by decide, rfl⟩
  · intro hst hs
    have hf : rest.all (fun card => !(card.suit != first.suit)) = false := by
      rw [Bool.eq_false_iff, Ne, hsuit]
      exact hs
    rw [evaluate_cons, hf, Option.some.injEq, classify_straight]
    exact ⟨rfl, hst⟩
  · intro hst hs
    have hf : rest.all (fun card => !(card.suit != first.suit)) = false := by
      rw [Bool.eq_false_iff, Ne, hsuit]
      exact hs
    have hst' : isStraightOf (instancesOfRank (first :: rest)) = false := hst
    rw [evaluate_cons, hf]
    unfold classify
    rw [resolve_finish, hst']
    simp only [Bool.false_eq_true, if_false, largestSet, numberOfSets, finish, bne_iff_ne]
  · intro hlen hs hnd
    have hlen5 : (first :: rest).length = 5 := by simp [hlen]
    have hst : isStraightOf (instancesOfRank (first :: rest)) = false := by
      rw [Bool.eq_false_iff]
      intro h
      exact hnd (nodup_of_sequence _ ((isStraightOf_iff _ hlen5 hr).1 h))
    rw [evaluate_cons, hsuit.2 hs, Option.some.injEq, classify_flush]
    exact ⟨rfl, hst⟩

theorem resolution_precedence_witness :
    (∀ c ∈ ([⟨"spade", 2⟩, ⟨"spade", 2⟩, ⟨"spade", 5⟩, ⟨"spade", 9⟩, ⟨"spade", 13⟩] :
        List Card), 1 ≤ c.rank ∧ c.rank ≤ 13) ∧
    evaluatePokerHand
        [⟨"spade", 2⟩, ⟨"spade", 2⟩, ⟨"spade", 5⟩, ⟨"spade", 9⟩, ⟨"spade", 13⟩] =
      some "flush" :=
  ⟨by decide,
    (resolution_precedence ⟨"spade", 2⟩
      [⟨"spade", 2⟩, ⟨"spade", 5⟩, ⟨"spade", 9⟩, ⟨"spade", 13⟩] (by decide)).2.2.2
      (by decide) (by decide) (by decide)⟩

/-! ## Array accesses -/

/-- Claim C20: for every hand that is not empty whose ranks all lie between 1 and 13,
every array access is in bounds: each tally index `rank - 1` lies between 0 and 12,
`hand[0]` exists, before every iteration of the first loop and after it the tally array
has exactly thirteen cells, all of them numbers, so both scans visit the indices 0 to 12,
and the call returns. -/
theorem accesses_in_bounds (hand : List Card) (hne : hand ≠ [])
    (hr : ∀ c ∈ hand, 1 ≤ c.rank ∧ c.rank ≤ 13) :
    (∀ c ∈ hand, 0 ≤ c.rank - 1 ∧ c.rank - 1 ≤ 12) ∧
    hand[0]? ≠ none ∧
    (∀ k, (instancesOfRank (hand.take k)).length = 13 ∧
      ∀ cell ∈ instancesOfRank (hand.take k), ∃ n : Nat, cell = some n) ∧
    (instancesOfRank hand).length = 13 ∧
    (∀ cell ∈ instancesOfRank hand, ∃ n : Nat, cell = some n) ∧
    evaluatePokerHand hand ≠ none := by
  have key : ∀ h : List Card, (∀ c ∈ h, 1 ≤ c.rank ∧ c.rank ≤ 13) →
      (instancesOfRank h).length = 13 ∧
        ∀ cell ∈ instancesOfRank h, ∃ n : Nat, cell = some n := by
    intro h hh
    rw [instancesOfRank_eq h hh]
    refine ⟨by rw [List.length_map, tallyOf_length], ?_⟩
    intro cell hcell
    obtain ⟨n, _, rfl⟩ := List.mem_map.1 hcell
    exact ⟨n, rfl⟩
  refine ⟨?_, ?_, ?_, (key hand hr).1, (key hand hr).2, ?_⟩
  · intro c hc
    have := hr c hc
    omega
  · rcases hand with _ | ⟨c, rest⟩
    · exact absurd rfl hne
    · simp
  · intro k
    exact key (hand.take k) (fun c hc => hr c (List.mem_of_mem_take hc))
  · rw [evaluate_eq hand hne]
    simp

theorem accesses_in_bounds_witness :
    ([⟨"spade", 2⟩, ⟨"spade", 2⟩, ⟨"heart", 9⟩] : List Card) ≠ [] ∧
    (∀ c ∈ ([⟨"spade", 2⟩, ⟨"spade", 2⟩, ⟨"heart", 9⟩] : List Card),
      1 ≤ c.rank ∧ c.rank ≤ 13) ∧
    (instancesOfRank [⟨"spade", 2⟩, ⟨"spade", 2⟩, ⟨"heart", 9⟩]).length = 13 ∧
    evaluatePokerHand [⟨"spade", 2⟩, ⟨"spade", 2⟩, ⟨"heart", 9⟩] ≠ none :=
  ⟨by decide, by decide,
    (accesses_in_bounds [⟨"spade", 2⟩, ⟨"spade", 2⟩, ⟨"heart", 9⟩]
      (by decide) (by decide)).2.2.2.1,
    (accesses_in_bounds [⟨"spade", 2⟩, ⟨"spade", 2⟩, ⟨"heart", 9⟩]
      (by decide) (by decide)).2.2.2.2.2⟩

/-! ## The value of `longestRun` -/

set_option maxRecDepth 100000 in
theorem shape_table : allUpTo 13 5 shapeCheck = true := by
  decide!

theorem runScanB_shape (p : List Bool) (hl : p.length = 13) (hc : p.count true ≤ 5) :
    runScanB p = if specLongestRunB p = 5 then 5 else trailingRunB p := by
  have := allUpTo_sound 13 5 shapeCheck shape_table p hl hc
  simpa [shapeCheck] using this

theorem specLongestRun_tally (t : List Nat) :
    specLongestRun (t.map some) = specLongestRunB (t.map (fun x => decide (0 < x))) := by
  unfold specLongestRun specLongestRunB
  rw [List.foldl_map, List.foldl_map]
  rfl

theorem trailingRun_tally (t : List Nat) :
    trailingRun (t.map some) = trailingRunB (t.map (fun x => decide (0 < x))) := by
  unfold trailingRun trailingRunB
  rw [← List.map_reverse, ← List.map_reverse, List.takeWhile_map, List.takeWhile_map,
    List.length_map, List.length_map]
  rfl

theorem patternOf_head (rs : List Int) :
    (patternOf rs).head? = some true ↔ (1 : Int) ∈ rs := by
  have hr : List.range 13 = [0, 1, 2, 3, 4, 5, 6, 7, 8, 9, 10, 11, 12] := by decide
  rw [patternOf_eq_map, hr]
  simp

/-- Claim C19, as stated, fails on the well-formed hand 2, 3, 4, 5, king of mixed suits:
the longest run of neighbouring ranks has length 4, but `longestRun` ends at 1, the run
being started again at every rank that is absent. -/
theorem longestRun_not_longest :
    wellFormed [⟨"spade", 2⟩, ⟨"heart", 3⟩, ⟨"diamond", 4⟩, ⟨"club", 5⟩, ⟨"spade", 13⟩] ∧
    longestRun [⟨"spade", 2⟩, ⟨"heart", 3⟩, ⟨"diamond", 4⟩, ⟨"club", 5⟩, ⟨"spade", 13⟩] = 1 ∧
    specLongestRun (instancesOfRank
      [⟨"spade", 2⟩, ⟨"heart", 3⟩, ⟨"diamond", 4⟩, ⟨"club", 5⟩, ⟨"spade", 13⟩]) = 4 ∧
    longestRun [⟨"spade", 2⟩, ⟨"heart", 3⟩, ⟨"diamond", 4⟩, ⟨"club", 5⟩, ⟨"spade", 13⟩] ≠
      specLongestRun (instancesOfRank
        [⟨"spade", 2⟩, ⟨"heart", 3⟩, ⟨"diamond", 4⟩, ⟨"club", 5⟩, ⟨"spade", 13⟩]) := by
  decide

/-- Claim C19, amended: for every well-formed hand the value of `longestRun` after the
straight loop is 5 when the longest run of neighbouring ranks has length 5, and otherwise
the length of the run that ends at the king; and it is 4 with an ace in the hand only
when ten, jack, queen and king are in the hand. -/
theorem longestRun_shape (hand : List Card) (hw : wellFormed hand) :
    longestRun hand =
      (if specLongestRun (instancesOfRank hand) = 5 then 5
        else trailingRun (instancesOfRank hand)) ∧
    (longestRun hand = 4 → (1 : Int) ∈ ranks hand →
      (10 : Int) ∈ ranks hand ∧ (11 : Int) ∈ ranks hand ∧ (12 : Int) ∈ ranks hand ∧
        (13 : Int) ∈ ranks hand) := by
  obtain ⟨hlen, hr, _, _⟩ := hw
  have hrs := ranks_range hand hr
  have hl : (ranks hand).length = 5 := by rw [ranks_length, hlen]
  have hrun : longestRun hand = runScanB (patternOf (ranks hand)) := by
    unfold longestRun
    rw [instancesOfRank_eq hand hr, runScan_tally]
    rfl
  constructor
  · rw [hrun, instancesOfRank_eq hand hr, specLongestRun_tally, trailingRun_tally]
    exact runScanB_shape (patternOf (ranks hand)) (patternOf_length _)
      (patternOf_count_le (ranks hand) hrs hl)
  · intro h4 h1
    rw [hrun] at h4
    have hp := (run_four_iff (ranks hand) hrs hl).1 ⟨h4, (patternOf_head _).2 h1⟩
    simp only [hp.mem_iff]
    decide

theorem longestRun_shape_witness :
    wellFormed [⟨"spade", 2⟩, ⟨"heart", 3⟩, ⟨"diamond", 4⟩, ⟨"club", 5⟩, ⟨"spade", 13⟩] ∧
    longestRun [⟨"spade", 2⟩, ⟨"heart", 3⟩, ⟨"diamond", 4⟩, ⟨"club", 5⟩, ⟨"spade", 13⟩] =
      (if specLongestRun (instancesOfRank
          [⟨"spade", 2⟩, ⟨"heart", 3⟩, ⟨"diamond", 4⟩, ⟨"club", 5⟩, ⟨"spade", 13⟩]) = 5
        then 5
        else trailingRun (instancesOfRank
          [⟨"spade", 2⟩, ⟨"heart", 3⟩, ⟨"diamond", 4⟩, ⟨"club", 5⟩, ⟨"spade", 13⟩])) :=
  ⟨by decide, (longestRun_shape _ (by decide)).1⟩

end Poker
